import Mathlib

/-!
Verification of the PSI report backend (`backend/ai.py`, `backend/verification.py`).

The Python code is shallowly embedded: a Python float is a `PyFloat` — a
finite value (idealised by the exact rational value of the decimal literal or
`Decimal` computation it came from; nearest-double rounding, a relative error
of 2^-52, sits below every decision threshold exercised by this code base) or
one of the IEEE specials.  Python `round` / `Decimal` rounding (banker's
rounding, round half to even) is modelled by `roundHalfEven`; `float(str)` by
the parser `parseFloat`, including exponents, `inf`/`nan` and PEP-515
underscores, with overflow to infinity at the double range limit; fallible
operations return `Option` or `Except`.  Decoded JSON values are modelled by
the inductive `JValue`; Python dicts are association lists with
replace-in-place update semantics, matching insertion-ordered `dict`.
-/

/-! ### ScoreModel: weights and rounding (ai.py lines 91-96, 154-160) -/

/-- Banker's rounding (round half to even) on an exact rational: the rounding mode
used by Python's builtin `round` on floats and by `Decimal` quantization
(`ROUND_HALF_EVEN`, the default context). -/
def roundHalfEven (q : ℚ) : ℤ :=
  if q - (⌊q⌋ : ℚ) < 1/2 then ⌊q⌋
  else if 1/2 < q - (⌊q⌋ : ℚ) then ⌊q⌋ + 1
  else if ⌊q⌋ % 2 = 0 then ⌊q⌋ else ⌊q⌋ + 1

/-- Rounding to one decimal place, as `round(d, 1)` on a `Decimal`:
quantize to a multiple of 1/10 under round-half-to-even. -/
def roundTo1 (q : ℚ) : ℚ := (roundHalfEven (10 * q) : ℚ) / 10

/-- PSI_WEIGHTS skill entry: `Decimal("0.45")`. -/
def PSI_WEIGHTS_skill : ℚ := 45/100

/-- PSI_WEIGHTS presence entry: `Decimal("0.25")`. -/
def PSI_WEIGHTS_presence : ℚ := 25/100

/-- PSI_WEIGHTS intent entry: `Decimal("0.30")`. -/
def PSI_WEIGHTS_intent : ℚ := 30/100

/-- WEIGHT_TOTAL = sum(PSI_WEIGHTS.values()). -/
def WEIGHT_TOTAL : ℚ := PSI_WEIGHTS_skill + PSI_WEIGHTS_presence + PSI_WEIGHTS_intent

/-- PSIReport.weighted_psi (ai.py lines 154-160), as a function of the three
component scores: the Decimal multiply-accumulate divided by WEIGHT_TOTAL,
rounded to one decimal place. -/
def weighted_psi (presence skill intent : ℤ) : ℚ :=
  roundTo1 (((skill : ℚ) * PSI_WEIGHTS_skill
      + (presence : ℚ) * PSI_WEIGHTS_presence
      + (intent : ℚ) * PSI_WEIGHTS_intent) / WEIGHT_TOTAL)

/-! ### Model of Python floats and of `float(str)` parsing

`float()` on a string accepts optional surrounding whitespace, an optional
sign, the case-insensitive specials `inf`/`infinity`/`nan`, or a decimal
literal with an optional fractional part, PEP-515 underscores between digits,
and an optional exponent.  A finite literal is idealised by the exact rational
it denotes; a literal whose exact magnitude is at least 2^1024 - 2^970 rounds
past the largest finite double, and CPython's float() returns an infinity for
it (it does not raise). -/

/-- A Python float: a finite value (idealised by the exact rational value of
the parsed decimal literal) or one of the IEEE specials. -/
inductive PyFloat where
  | finite (q : ℚ)
  | inf (neg : Bool)
  | nan
  deriving Repr, DecidableEq

/-- Python exception kinds relevant to the report pipeline.  `typeError` is in
`generate_psi_report`'s except tuple; a plain `valueError` (other than
`json.JSONDecodeError`), `overflowError` (raised by `round` on an infinite
float) and SDK/transport exceptions are not in any except tuple of the
pipeline. -/
inductive PyError where
  | typeError
  | valueError
  | overflowError
  | sdkError
  deriving Repr, DecidableEq

theorem except_bind_ok {ε α β : Type} (a : α) (f : α → Except ε β) :
    (Except.ok (ε := ε) a).bind f = f a := rfl

theorem except_bind_error {ε α β : Type} (e : ε) (f : α → Except ε β) :
    (Except.error (α := α) e).bind f = .error e := rfl

theorem except_map_ok {ε α β : Type} (f : α → β) (a : α) :
    (Except.ok (ε := ε) a).map f = .ok (f a) := rfl

theorem except_map_error {ε α β : Type} (f : α → β) (e : ε) :
    (Except.error (α := α) e).map f = .error e := rfl

/-- Character-level whitespace test used for stripping, as `str.strip()`. -/
def isPyWs (c : Char) : Bool := c.isWhitespace

/-- Drop trailing whitespace characters. -/
def dropTrailingWs (cs : List Char) : List Char :=
  (cs.reverse.dropWhile isPyWs).reverse

/-- Strip leading and trailing whitespace from a character list. -/
def stripChars (cs : List Char) : List Char :=
  dropTrailingWs (cs.dropWhile isPyWs)

/-- Python `str.strip()`. -/
def stripStr (s : String) : String := ⟨stripChars s.data⟩

/-- Value of a list of decimal digit characters. -/
def digitsToNat (cs : List Char) : ℕ :=
  cs.foldl (fun a c => 10 * a + (c.toNat - '0'.toNat)) 0

/-- Lower-case an ASCII letter (for the case-insensitive special literals). -/
def lowerChar (c : Char) : Char :=
  if 'A' ≤ c ∧ c ≤ 'Z' then Char.ofNat (c.toNat + 32) else c

/-- Digit-or-underscore test for PEP-515 digit runs. -/
def isDU (c : Char) : Bool := c.isDigit || c == '_'

/-- Does the run start with a digit? -/
def headDigit : List Char → Bool
  | [] => false
  | c :: _ => c.isDigit

/-- No two adjacent underscores. -/
def noDoubleUnderscore : List Char → Bool
  | [] => true
  | [_] => true
  | c :: c2 :: cs => !(c == '_' && c2 == '_') && noDoubleUnderscore (c2 :: cs)

/-- A valid PEP-515 digit run: starts and ends with a digit, underscores only
singly and between digits. -/
def duOk (cs : List Char) : Bool :=
  headDigit cs && headDigit cs.reverse && noDoubleUnderscore cs

/-- Parse a maximal digit run (with underscores) at the head of the input,
returning the digits (underscores removed) and the rest; fails when the run
is empty or malformed. -/
def duRun (l : List Char) : Option (List Char × List Char) :=
  let r := l.takeWhile isDU
  if duOk r then some (r.filter Char.isDigit, l.drop r.length) else none

/-- Numeric value of integer-part and fraction-part digits. -/
def mantissaVal (ip fp : List Char) : ℚ :=
  (digitsToNat ip : ℚ) + (digitsToNat fp : ℚ) / (10 : ℚ) ^ fp.length

/-- Parse the mantissa of a decimal float literal (`123`, `123.45`, `.5`,
`7.`), returning its value and the unconsumed rest. -/
def parseMantissa (l : List Char) : Option (ℚ × List Char) :=
  match duRun l with
  | some (ip, rest) =>
    match rest with
    | '.' :: rest2 =>
      match duRun rest2 with
      | some (fp, rest3) => some (mantissaVal ip fp, rest3)
      | none => some (mantissaVal ip [], rest2)
    | _ => some (mantissaVal ip [], rest)
  | none =>
    match l with
    | '.' :: rest2 =>
      match duRun rest2 with
      | some (fp, rest3) => some (mantissaVal [] fp, rest3)
      | none => none
    | _ => none

/-- Parse the optional exponent and require the end of the literal:
`[eE][+-]?digits`. -/
def parseExpEnd (l : List Char) : Option ℤ :=
  match l with
  | [] => some 0
  | c :: cs =>
    if c = 'e' ∨ c = 'E' then
      match cs with
      | '+' :: cs2 => (duRun cs2).bind (fun p =>
          if p.2.isEmpty then some ((digitsToNat p.1 : ℤ)) else none)
      | '-' :: cs2 => (duRun cs2).bind (fun p =>
          if p.2.isEmpty then some (-(digitsToNat p.1 : ℤ)) else none)
      | _ => (duRun cs).bind (fun p =>
          if p.2.isEmpty then some ((digitsToNat p.1 : ℤ)) else none)
    else none

/-- The double overflow threshold: a literal whose exact magnitude is at
least 2^1024 - 2^970 rounds (to nearest, ties to even) past the largest
finite double. -/
def FLOAT_OVERFLOW : ℚ := 2 ^ (1024 : ℕ) - 2 ^ (970 : ℕ)

/-- Classify an exact literal value against the overflow threshold, as
CPython's string-to-float conversion does. -/
def mkFinite (q : ℚ) : PyFloat :=
  if FLOAT_OVERFLOW ≤ q then .inf false
  else if q ≤ -FLOAT_OVERFLOW then .inf true
  else .finite q

/-- Case-insensitive match of the whole remaining literal against the
specials `inf`, `infinity`, `nan`. -/
def matchSpecial (l : List Char) (neg : Bool) : Option PyFloat :=
  if l.map lowerChar = "inf".data ∨ l.map lowerChar = "infinity".data then
    some (.inf neg)
  else if l.map lowerChar = "nan".data then some .nan
  else none

/-- Sign application. -/
def pySign (neg : Bool) (q : ℚ) : ℚ := if neg then -q else q

/-- The body of `float()` after sign splitting. -/
def parseFloatCore (neg : Bool) (l : List Char) : Option PyFloat :=
  match matchSpecial l neg with
  | some r => some r
  | none =>
    (parseMantissa l).bind (fun m =>
      (parseExpEnd m.2).map (fun e => mkFinite (pySign neg (m.1 * (10 : ℚ) ^ e))))

/-- Python `float(s)` on a string (the model of `float(str(value))`): strip
whitespace, split an optional sign, then parse a special or a decimal
literal; `none` models the ValueError raised on a malformed literal. -/
def parseFloat (s : String) : Option PyFloat :=
  match stripChars s.data with
  | '+' :: rest => parseFloatCore false rest
  | '-' :: rest => parseFloatCore true rest
  | cs => parseFloatCore false cs

theorem FLOAT_OVERFLOW_big : (10 ^ 6 : ℚ) < FLOAT_OVERFLOW := by
  unfold FLOAT_OVERFLOW
  norm_num

theorem mkFinite_small {q : ℚ} (h1 : -(10 ^ 6 : ℚ) ≤ q) (h2 : q ≤ (10 ^ 6 : ℚ)) :
    mkFinite q = .finite q := by
  have hb := FLOAT_OVERFLOW_big
  unfold mkFinite
  split_ifs with hA hB
  · linarith
  · linarith
  · rfl

theorem mkFinite_overflow {q : ℚ} (h : FLOAT_OVERFLOW ≤ q) :
    mkFinite q = .inf false := by
  unfold mkFinite
  rw [if_pos h]

/-- Display stand-in for the Python float repr of a finite value; no claim
depends on the rendered digits. -/
def ratRepr (q : ℚ) : String :=
  if q.den = 1 then toString q.num ++ ".0"
  else if (q * 10).den = 1 then
    toString (q.num / (q.den : ℤ)) ++ "." ++ toString (((q * 10).num % 10).natAbs)
  else toString q.num ++ "/" ++ toString q.den

/-- Display stand-in for the Python float repr. -/
def pyFloatRepr : PyFloat → String
  | .finite q => ratRepr q
  | .inf false => "inf"
  | .inf true => "-inf"
  | .nan => "nan"

/-! ### Evaluation data and the FallbackEstimator (ai.py lines 428-466)

`_extract_evaluation_data` stringifies every field, so the evaluation-data
mapping reaching `_fallback_scores` is a string-keyed, string-valued dict,
modelled as an association list. -/

/-- Lookup in an association list: Python `dict.get(key)` (keys are unique in a
Python dict; lookup returns the first binding). -/
def getS {α : Type} : List (String × α) → String → Option α
  | [], _ => none
  | (k, v) :: rest, key => if k = key then some v else getS rest key

/-- Evaluation data as seen by the fallback path: a read-only mapping of
named text fields. -/
def EvalData : Type := List (String × String)

/-- Clamp an integer into [0, 10]: `max(0, min(10, n))`. -/
def clamp10 (n : ℤ) : ℤ := max 0 (min 10 n)

/-- `_coerce_from_notes` applied to a present note string: parse as a float;
a finite value is rounded and clamped to [0,10]; a ValueError (malformed
literal, or `round(nan)`) is caught by `except (TypeError, ValueError)` and
defaults to 5; an infinite value makes `int(round(...))` raise OverflowError,
which that except clause does NOT catch. -/
def noteScore (s : String) : Except PyError ℤ :=
  match parseFloat s with
  | none => .ok 5
  | some (.finite q) => .ok (clamp10 (roundHalfEven q))
  | some (.inf _) => .error .overflowError
  | some .nan => .ok 5

/-- Inner helper `_coerce_from_notes` of `_fallback_scores`: absent fields
default to 5, present fields go through the parse-round-clamp path. -/
def coerce_from_notes (ed : EvalData) (key : String) : Except PyError ℤ :=
  match getS ed key with
  | none => .ok 5
  | some s => noteScore s

/-- `_score_from_text` applied to a present candidate string: as `noteScore`
but yielding `none` (skip this field) instead of the default. -/
def textScore (s : String) : Except PyError (Option ℤ) :=
  match parseFloat s with
  | none => .ok none
  | some (.finite q) => .ok (some (clamp10 (roundHalfEven q)))
  | some (.inf _) => .error .overflowError
  | some .nan => .ok none

/-- Inner helper `_score_from_text` of `_fallback_scores` (an absent field
stringifies to "None", which fails the numeric parse). -/
def score_from_text (v : Option String) : Except PyError (Option ℤ) :=
  match v with
  | none => .ok none
  | some s => textScore s

/-- Effectful left-to-right map over `Except`, as the list comprehension over
`map(_score_from_text, ...)` evaluates: the first raised exception
propagates. -/
def mapExcept {ε α β : Type} (f : α → Except ε β) : List α → Except ε (List β)
  | [] => .ok []
  | a :: as => (f a).bind (fun b => (mapExcept f as).map (fun bs => b :: bs))

/-- Scores produced by the fallback estimator. -/
structure FallbackScores where
  presence : ℤ
  skill : ℤ
  intent : ℤ
  psi : ℚ
  deriving Repr, DecidableEq

/-- The six skill-related note fields averaged by the fallback path, in source
order. -/
def skillFieldKeys : List String :=
  ["front_court", "back_court", "attacking_play", "defensive_play",
   "strokeplay", "footwork"]

/-- `_fallback_scores` (ai.py lines 428-466): presence and intent from the
corresponding note fields; skill as the rounded mean of the per-field
parsed-and-clamped skill candidates (default 5 when none parse; the int/int
division `sum/len` is a float division whose exact value decides identically
at every rounding boundary reachable here); psi as the exact Decimal weighted
average rounded to one decimal.  An OverflowError raised by any component
coercion propagates out of the function, in source evaluation order. -/
def skillOf (opts : List (Option ℤ)) : ℤ :=
  if (opts.filterMap id).isEmpty then 5
  else roundHalfEven (((opts.filterMap id).sum : ℚ) / ((opts.filterMap id).length : ℚ))

/-- `_fallback_scores` itself: bind the three coercions in source order and
assemble the record (psi is the same Decimal weighted-average-and-round
expression as `weighted_psi`). -/
def fallback_scores (ed : EvalData) : Except PyError FallbackScores :=
  (coerce_from_notes ed "presence").bind (fun presence =>
  (coerce_from_notes ed "intent").bind (fun intent =>
  (mapExcept score_from_text (skillFieldKeys.map (getS ed))).map (fun opts =>
    ⟨presence, skillOf opts, intent,
      roundTo1 (((skillOf opts : ℚ) * PSI_WEIGHTS_skill
        + (presence : ℚ) * PSI_WEIGHTS_presence
        + (intent : ℚ) * PSI_WEIGHTS_intent) / WEIGHT_TOTAL)⟩)))

/-! ### Basic facts about the rounding and clamping helpers -/

theorem roundHalfEven_nonneg {q : ℚ} (h : 0 ≤ q) : 0 ≤ roundHalfEven q := by
  have h0 : (0 : ℤ) ≤ ⌊q⌋ := Int.floor_nonneg.mpr h
  unfold roundHalfEven
  split_ifs <;> omega

theorem roundHalfEven_le_of_le {q : ℚ} {n : ℤ} (h : q ≤ (n : ℚ)) :
    roundHalfEven q ≤ n := by
  have hf : ⌊q⌋ ≤ n := by
    have := Int.floor_le_floor h
    simpa using this
  unfold roundHalfEven
  split_ifs with h1 h2 h3
  · exact hf
  · -- here 1/2 < q - ⌊q⌋, so ⌊q⌋ < n
    have hq : (⌊q⌋ : ℚ) + 1/2 < q := by linarith
    have : (⌊q⌋ : ℚ) < (n : ℚ) := by linarith
    have : ⌊q⌋ < n := by exact_mod_cast this
    omega
  · exact hf
  · -- tie case with odd floor: q - ⌊q⌋ = 1/2 exactly
    have hq : (⌊q⌋ : ℚ) + 1/2 ≤ q := by linarith
    have : (⌊q⌋ : ℚ) < (n : ℚ) := by linarith
    have : ⌊q⌋ < n := by exact_mod_cast this
    omega

theorem clamp10_nonneg (n : ℤ) : 0 ≤ clamp10 n := by
  unfold clamp10; omega

theorem clamp10_le (n : ℤ) : clamp10 n ≤ 10 := by
  unfold clamp10; omega

theorem coerce_from_notes_bounds (ed : EvalData) (key : String) {n : ℤ}
    (h : coerce_from_notes ed key = .ok n) : 0 ≤ n ∧ n ≤ 10 := by
  unfold coerce_from_notes at h
  rcases hg : getS ed key with _ | s
  · rw [hg] at h
    have h2 : (Except.ok 5 : Except PyError ℤ) = .ok n := h
    injection h2 with h3
    omega
  · rw [hg] at h
    have h2 : noteScore s = .ok n := h
    unfold noteScore at h2
    rcases hp : parseFloat s with _ | pf
    · rw [hp] at h2
      have h3 : (Except.ok 5 : Except PyError ℤ) = .ok n := h2
      injection h3 with h4
      omega
    · rcases pf with q | b | _
      · rw [hp] at h2
        have h3 : (Except.ok (clamp10 (roundHalfEven q)) : Except PyError ℤ) = .ok n := h2
        injection h3 with h4
        rw [← h4]
        exact ⟨clamp10_nonneg _, clamp10_le _⟩
      · rw [hp] at h2
        exact absurd h2 (by simp)
      · rw [hp] at h2
        have h3 : (Except.ok 5 : Except PyError ℤ) = .ok n := h2
        injection h3 with h4
        omega

theorem score_from_text_bounds (v : Option String) {x : ℤ}
    (h : score_from_text v = .ok (some x)) : 0 ≤ x ∧ x ≤ 10 := by
  rcases v with _ | s
  · have h2 : (Except.ok (none : Option ℤ) : Except PyError (Option ℤ))
        = .ok (some x) := h
    injection h2 with h3
    exact absurd h3 (by simp)
  · have h2 : textScore s = .ok (some x) := h
    unfold textScore at h2
    rcases hp : parseFloat s with _ | pf
    · rw [hp] at h2
      have h3 : (Except.ok (none : Option ℤ) : Except PyError (Option ℤ))
          = .ok (some x) := h2
      injection h3 with h4
      exact absurd h4 (by simp)
    · rcases pf with q | b | _
      · rw [hp] at h2
        have h3 : (Except.ok (some (clamp10 (roundHalfEven q))) :
            Except PyError (Option ℤ)) = .ok (some x) := h2
        injection h3 with h4
        have h5 : clamp10 (roundHalfEven q) = x := by
          injection h4
        rw [← h5]
        exact ⟨clamp10_nonneg _, clamp10_le _⟩
      · rw [hp] at h2
        exact absurd h2 (by simp)
      · rw [hp] at h2
        have h3 : (Except.ok (none : Option ℤ) : Except PyError (Option ℤ))
            = .ok (some x) := h2
        injection h3 with h4
        exact absurd h4 (by simp)

theorem mapExcept_ok_forall {ε α β : Type} (f : α → Except ε β) :
    ∀ (l : List α) (bs : List β), mapExcept f l = .ok bs →
      ∀ b ∈ bs, ∃ a ∈ l, f a = .ok b := by
  intro l
  induction l with
  | nil =>
    intro bs h b hb
    have h2 : (Except.ok ([] : List β) : Except ε (List β)) = .ok bs := h
    injection h2 with h3
    rw [← h3] at hb
    cases hb
  | cons a as ih =>
    intro bs h b hb
    unfold mapExcept at h
    rcases hfa : f a with e | b0
    · rw [hfa] at h
      exact absurd (show (Except.error e : Except ε (List β)) = .ok bs from h) (by simp)
    · rw [hfa] at h
      have h2 : (mapExcept f as).map (fun bs => b0 :: bs) = .ok bs := h
      rcases hm : mapExcept f as with e | bs0
      · rw [hm] at h2
        exact absurd (show (Except.error e : Except ε (List β)) = .ok bs from h2) (by simp)
      · rw [hm] at h2
        have h3 : (Except.ok (b0 :: bs0) : Except ε (List β)) = .ok bs := h2
        injection h3 with h4
        rw [← h4] at hb
        rcases List.mem_cons.mp hb with h5 | h5
        · exact ⟨a, List.mem_cons_self _ _, h5 ▸ hfa⟩
        · obtain ⟨a2, ha2, hfa2⟩ := ih bs0 hm b h5
          exact ⟨a2, List.mem_cons_of_mem _ ha2, hfa2⟩

theorem mean_bound (l : List ℤ) (hl : l ≠ []) (h : ∀ x ∈ l, 0 ≤ x ∧ x ≤ 10) :
    0 ≤ (l.sum : ℚ) / (l.length : ℚ) ∧ (l.sum : ℚ) / (l.length : ℚ) ≤ 10 := by
  have hlen : 0 < l.length := List.length_pos.mpr hl
  have hlenQ : (0 : ℚ) < (l.length : ℚ) := by exact_mod_cast hlen
  have hs0 : (0 : ℤ) ≤ l.sum := List.sum_nonneg (fun x hx => (h x hx).1)
  have hs1 : l.sum ≤ l.length • (10 : ℤ) := List.sum_le_card_nsmul l 10 (fun x hx => (h x hx).2)
  have hs1' : l.sum ≤ 10 * l.length := by
    have := hs1
    simpa [nsmul_eq_mul, mul_comm] using this
  constructor
  · apply div_nonneg _ (le_of_lt hlenQ)
    exact_mod_cast hs0
  · rw [div_le_iff hlenQ]
    have : (l.sum : ℚ) ≤ 10 * (l.length : ℚ) := by exact_mod_cast hs1'
    linarith

/-- C2: for component scores in [0,10] the weighted PSI lies in [0.0, 10.0] and
has exactly one decimal place (it is t/10 for an integer 0 ≤ t ≤ 100), and the
three quoted values hold: weighted_psi(10,10,10) = 10.0, weighted_psi(0,0,0) =
0.0, weighted_psi(presence=8, skill=6, intent=7) = 6.8. -/
theorem weighted_psi_range_and_values :
    (∀ presence skill intent : ℤ,
        0 ≤ presence → presence ≤ 10 → 0 ≤ skill → skill ≤ 10 →
        0 ≤ intent → intent ≤ 10 →
        ∃ t : ℤ, weighted_psi presence skill intent = (t : ℚ) / 10 ∧
          0 ≤ t ∧ t ≤ 100 ∧
          0 ≤ weighted_psi presence skill intent ∧
          weighted_psi presence skill intent ≤ 10) ∧
    weighted_psi 10 10 10 = 10 ∧
    weighted_psi 0 0 0 = 0 ∧
    weighted_psi 8 6 7 = 68/10 := by
  refine ⟨?_, ?_, ?_, ?_⟩
  · intro p s i hp0 hp1 hs0 hs1 hi0 hi1
    have hwt : WEIGHT_TOTAL = 1 := by
      norm_num [WEIGHT_TOTAL, PSI_WEIGHTS_skill, PSI_WEIGHTS_presence, PSI_WEIGHTS_intent]
    have hval : weighted_psi p s i =
        (roundHalfEven (((45 * s + 25 * p + 30 * i : ℤ) : ℚ) / 10) : ℚ) / 10 := by
      unfold weighted_psi roundTo1
      rw [hwt]
      congr 2
      push_cast
      norm_num [PSI_WEIGHTS_skill, PSI_WEIGHTS_presence, PSI_WEIGHTS_intent]
      ring
    have hN0 : (0 : ℤ) ≤ 45 * s + 25 * p + 30 * i := by omega
    have hN1 : 45 * s + 25 * p + 30 * i ≤ 1000 := by omega
    have harg0 : (0 : ℚ) ≤ ((45 * s + 25 * p + 30 * i : ℤ) : ℚ) / 10 := by
      apply div_nonneg _ (by norm_num)
      exact_mod_cast hN0
    have harg1 : ((45 * s + 25 * p + 30 * i : ℤ) : ℚ) / 10 ≤ ((100 : ℤ) : ℚ) := by
      rw [div_le_iff (by norm_num : (0:ℚ) < 10)]
      push_cast
      have : ((45 * s + 25 * p + 30 * i : ℤ) : ℚ) ≤ 1000 := by exact_mod_cast hN1
      push_cast at this
      linarith
    refine ⟨roundHalfEven (((45 * s + 25 * p + 30 * i : ℤ) : ℚ) / 10), hval, ?_, ?_, ?_, ?_⟩
    · exact roundHalfEven_nonneg harg0
    · exact roundHalfEven_le_of_le harg1
    · rw [hval]
      have := roundHalfEven_nonneg harg0
      positivity
    · rw [hval]
      have h100 := roundHalfEven_le_of_le harg1
      rw [div_le_iff (by norm_num : (0:ℚ) < 10)]
      have : (roundHalfEven (((45 * s + 25 * p + 30 * i : ℤ) : ℚ) / 10) : ℚ) ≤ 100 := by
        exact_mod_cast h100
      linarith
  · norm_num [weighted_psi, roundTo1, roundHalfEven, WEIGHT_TOTAL,
      PSI_WEIGHTS_skill, PSI_WEIGHTS_presence, PSI_WEIGHTS_intent]
  · norm_num [weighted_psi, roundTo1, roundHalfEven, WEIGHT_TOTAL,
      PSI_WEIGHTS_skill, PSI_WEIGHTS_presence, PSI_WEIGHTS_intent]
  · norm_num [weighted_psi, roundTo1, roundHalfEven, WEIGHT_TOTAL,
      PSI_WEIGHTS_skill, PSI_WEIGHTS_presence, PSI_WEIGHTS_intent]

/-- Witness for C2: the universally quantified part applied at presence=8,
skill=6, intent=7. -/
theorem weighted_psi_range_and_values_witness :
    ∃ t : ℤ, weighted_psi 8 6 7 = (t : ℚ) / 10 ∧
      0 ≤ t ∧ t ≤ 100 ∧ 0 ≤ weighted_psi 8 6 7 ∧ weighted_psi 8 6 7 ≤ 10 :=
  weighted_psi_range_and_values.1 8 6 7 (by decide) (by decide) (by decide)
    (by decide) (by decide) (by decide)

/-- Evaluation of `parseFloat` at a concrete plain digit string. -/
theorem pfDigits (s : String) (d : List Char) (n : ℕ)
    (h1 : parseFloat s = some (mkFinite (mantissaVal d [] * (10 : ℚ) ^ (0 : ℤ))))
    (h2 : digitsToNat d = n) (h3 : ((n : ℕ) : ℚ) ≤ 10 ^ 6) :
    parseFloat s = some (.finite ((n : ℕ) : ℚ)) := by
  have hv : mantissaVal d [] * (10 : ℚ) ^ (0 : ℤ) = ((n : ℕ) : ℚ) := by
    unfold mantissaVal
    rw [h2, show digitsToNat ([] : List Char) = 0 from rfl]
    norm_num
  rw [h1, hv, mkFinite_small (le_trans (by norm_num) (Nat.cast_nonneg n)) h3]

theorem pf4 : parseFloat "4" = some (.finite ((4 : ℕ) : ℚ)) :=
  pfDigits "4" ['4'] 4 rfl rfl (by norm_num)

theorem pf5 : parseFloat "5" = some (.finite ((5 : ℕ) : ℚ)) :=
  pfDigits "5" ['5'] 5 rfl rfl (by norm_num)

theorem pf6 : parseFloat "6" = some (.finite ((6 : ℕ) : ℚ)) :=
  pfDigits "6" ['6'] 6 rfl rfl (by norm_num)

theorem pf7 : parseFloat "7" = some (.finite ((7 : ℕ) : ℚ)) :=
  pfDigits "7" ['7'] 7 rfl rfl (by norm_num)

theorem pf8 : parseFloat "8" = some (.finite ((8 : ℕ) : ℚ)) :=
  pfDigits "8" ['8'] 8 rfl rfl (by norm_num)

theorem pf15 : parseFloat "15" = some (.finite ((15 : ℕ) : ℚ)) :=
  pfDigits "15" ['1', '5'] 15 rfl rfl (by norm_num)

theorem pf1e1 : parseFloat "1e1" = some (.finite ((10 : ℕ) : ℚ)) := by
  rw [show parseFloat "1e1"
      = some (mkFinite (mantissaVal ['1'] [] * (10 : ℚ) ^ ((digitsToNat ['1'] : ℤ)))) from rfl]
  have hv : mantissaVal ['1'] [] * (10 : ℚ) ^ ((digitsToNat ['1'] : ℤ)) = ((10 : ℕ) : ℚ) := by
    unfold mantissaVal
    rw [show digitsToNat ['1'] = 1 from rfl, show digitsToNat ([] : List Char) = 0 from rfl,
      zpow_natCast]
    norm_num
  rw [hv, mkFinite_small (by norm_num) (by norm_num)]

theorem pf1e400 : parseFloat "1e400" = some (.inf false) := by
  rw [show parseFloat "1e400"
      = some (mkFinite (mantissaVal ['1'] []
          * (10 : ℚ) ^ ((digitsToNat ['4', '0', '0'] : ℤ)))) from rfl]
  have hv : mantissaVal ['1'] [] * (10 : ℚ) ^ ((digitsToNat ['4', '0', '0'] : ℤ))
      = (10 : ℚ) ^ (400 : ℕ) := by
    unfold mantissaVal
    rw [show digitsToNat ['1'] = 1 from rfl, show digitsToNat ['4', '0', '0'] = 400 from rfl,
      show digitsToNat ([] : List Char) = 0 from rfl, zpow_natCast]
    norm_num
  rw [hv, mkFinite_overflow (by unfold FLOAT_OVERFLOW; norm_num)]

/-- The fallback estimator on empty evaluation data: every component
defaults. -/
theorem fallback_empty_eq : fallback_scores [] = .ok ⟨5, 5, 5, 5⟩ := by
  unfold fallback_scores
  rw [show coerce_from_notes [] "presence" = .ok 5 from rfl,
    show coerce_from_notes [] "intent" = .ok 5 from rfl,
    show mapExcept score_from_text (skillFieldKeys.map (getS []))
      = .ok [none, none, none, none, none, none] from rfl]
  simp only [except_bind_ok, except_map_ok, Except.ok.injEq, FallbackScores.mk.injEq]
  refine ⟨trivial, rfl, trivial, ?_⟩
  norm_num [skillOf, roundTo1, roundHalfEven, WEIGHT_TOTAL,
    PSI_WEIGHTS_skill, PSI_WEIGHTS_presence, PSI_WEIGHTS_intent]

theorem skillOf_bounds (opts : List (Option ℤ))
    (hb : ∀ x : ℤ, some x ∈ opts → 0 ≤ x ∧ x ≤ 10) :
    0 ≤ skillOf opts ∧ skillOf opts ≤ 10 := by
  unfold skillOf
  rcases hv : opts.filterMap id with _ | ⟨x, rest⟩
  · norm_num
  · have hne : (x :: rest : List ℤ) ≠ [] := by simp
    have hmem : ∀ y ∈ (x :: rest : List ℤ), 0 ≤ y ∧ y ≤ 10 := by
      intro y hy
      rw [← hv] at hy
      rcases List.mem_filterMap.mp hy with ⟨v, hvmem, hvy⟩
      have hv2 : v = some y := hvy
      rw [hv2] at hvmem
      exact hb y hvmem
    have hm := mean_bound (x :: rest) hne hmem
    have h1 : (0:ℤ) ≤ roundHalfEven (((x :: rest : List ℤ).sum : ℚ) /
        ((x :: rest : List ℤ).length : ℚ)) := roundHalfEven_nonneg hm.1
    have h2 : roundHalfEven (((x :: rest : List ℤ).sum : ℚ) /
        ((x :: rest : List ℤ).length : ℚ)) ≤ 10 := by
      apply roundHalfEven_le_of_le
      exact_mod_cast hm.2
    rw [if_neg (by simp : ¬((x :: rest : List ℤ).isEmpty = true))]
    exact ⟨h1, h2⟩

/-- Concrete evaluation-data used to separate the code's skill derivation from
the claim's: one out-of-range numeric skill field together with one in-range
numeric skill field. -/
def edSkillMix : EvalData :=
  [("presence", "7"), ("intent", "4"), ("front_court", "15"), ("back_court", "5"),
   ("attacking_play", "n/a"), ("defensive_play", "n/a"), ("strokeplay", "n/a"),
   ("footwork", "n/a")]

/-- The numeric parse of a field as the claim words it: a finite float. -/
def parseFin (s : String) : Option ℚ :=
  match parseFloat s with
  | some (.finite q) => some q
  | _ => none

/-- Skill derivation as the claim words it: the rounded mean of the
numeric-parseable values among the six skill fields (no per-field clamping),
default 5 when none parse.  Stated for comparison with `fallback_scores`. -/
def claim_skill_rounded_mean (ed : EvalData) : ℤ :=
  let parsed := (skillFieldKeys.map (getS ed)).filterMap (fun v => v.bind parseFin)
  if parsed.isEmpty then 5
  else roundHalfEven (parsed.sum / (parsed.length : ℚ))

/-- C3 is contradicted by the code on two counts.  (1) `_fallback_scores` is
not total: a note field parsing to an infinite float ("inf", "1e400") makes
`int(round(float(...)))` raise OverflowError, which `except (TypeError,
ValueError)` does not catch, so the derivation raises instead of defaulting
to 5 (exponent literals such as "1e1" do parse — presence 10 — they are not
parse failures).  (2) On inputs where no exception is raised, each skill
field is clamped to [0,10] BEFORE the mean is taken: with front_court "15"
and back_court "5" the code yields skill round(mean(10,5)) = 8 while the
claim's rounded mean of the parsed values is round(mean(15,5)) = 10.  On
every successful run the three components lie in [0,10] and psi equals
weighted_psi of the three. -/
theorem fallback_scores_characterization :
    fallback_scores [("presence", "inf")] = .error .overflowError ∧
    fallback_scores [("front_court", "1e400")] = .error .overflowError ∧
    (∃ fs, fallback_scores [("presence", "1e1")] = .ok fs ∧ fs.presence = 10) ∧
    (∀ (ed : EvalData) (fs : FallbackScores), fallback_scores ed = .ok fs →
        (0 ≤ fs.presence ∧ fs.presence ≤ 10) ∧
        (0 ≤ fs.intent ∧ fs.intent ≤ 10) ∧
        (0 ≤ fs.skill ∧ fs.skill ≤ 10) ∧
        fs.psi = weighted_psi fs.presence fs.skill fs.intent) ∧
    (∃ fs, fallback_scores edSkillMix = .ok fs ∧ fs.skill = 8) ∧
    claim_skill_rounded_mean edSkillMix = 10 := by
  have hs15 : score_from_text (some "15") = .ok (some 10) := by
    have h2 : textScore "15" = .ok (some 10) := by
      unfold textScore
      rw [pf15]
      show (Except.ok (some (clamp10 (roundHalfEven ((15 : ℕ) : ℚ)))) :
        Except PyError (Option ℤ)) = .ok (some 10)
      rw [show roundHalfEven ((15 : ℕ) : ℚ) = 15 by norm_num [roundHalfEven]]
      norm_num [clamp10, min_def, max_def]
    exact h2
  have hs5 : score_from_text (some "5") = .ok (some 5) := by
    have h2 : textScore "5" = .ok (some 5) := by
      unfold textScore
      rw [pf5]
      show (Except.ok (some (clamp10 (roundHalfEven ((5 : ℕ) : ℚ)))) :
        Except PyError (Option ℤ)) = .ok (some 5)
      rw [show roundHalfEven ((5 : ℕ) : ℚ) = 5 by norm_num [roundHalfEven]]
      norm_num [clamp10, min_def, max_def]
    exact h2
  have hsna : score_from_text (some "n/a") = .ok none := rfl
  refine ⟨rfl, ?_, ?_, ?_, ?_, ?_⟩
  · -- front_court "1e400" raises OverflowError out of the skill mapping
    have hsc : score_from_text (some "1e400") = .error .overflowError := by
      have h2 : textScore "1e400" = .error .overflowError := by
        unfold textScore
        rw [pf1e400]
      exact h2
    have hmap : mapExcept score_from_text
        (skillFieldKeys.map (getS [("front_court", "1e400")]))
        = .error .overflowError := by
      rw [show skillFieldKeys.map (getS [("front_court", "1e400")])
          = [some "1e400", none, none, none, none, none] from rfl]
      unfold mapExcept
      rw [hsc]
      rfl
    unfold fallback_scores
    rw [show coerce_from_notes [("front_court", "1e400")] "presence" = .ok 5 from rfl,
      show coerce_from_notes [("front_court", "1e400")] "intent" = .ok 5 from rfl,
      hmap]
    rfl
  · -- presence "1e1" parses to 10.0 and clamps to 10
    have hcp : coerce_from_notes [("presence", "1e1")] "presence" = .ok 10 := by
      have h2 : noteScore "1e1" = .ok 10 := by
        unfold noteScore
        rw [pf1e1]
        show (Except.ok (clamp10 (roundHalfEven ((10 : ℕ) : ℚ))) :
          Except PyError ℤ) = .ok 10
        rw [show roundHalfEven ((10 : ℕ) : ℚ) = 10 by norm_num [roundHalfEven]]
        norm_num [clamp10, min_def, max_def]
      exact h2
    have hfb : ∃ t, fallback_scores [("presence", "1e1")]
        = .ok ⟨10, skillOf [none, none, none, none, none, none], 5, t⟩ := by
      unfold fallback_scores
      rw [hcp,
        show coerce_from_notes [("presence", "1e1")] "intent" = .ok 5 from rfl,
        show mapExcept score_from_text (skillFieldKeys.map (getS [("presence", "1e1")]))
          = .ok [none, none, none, none, none, none] from rfl]
      simp only [except_bind_ok, except_map_ok]
      exact ⟨_, rfl⟩
    obtain ⟨t, ht⟩ := hfb
    exact ⟨_, ht, rfl⟩
  · -- success characterization
    intro ed fs h
    unfold fallback_scores at h
    rcases hcp : coerce_from_notes ed "presence" with e | p
    · rw [hcp] at h
      exact absurd (show (Except.error e : Except PyError FallbackScores) = .ok fs from h)
        (by simp)
    · rw [hcp] at h
      simp only [except_bind_ok] at h
      rcases hci : coerce_from_notes ed "intent" with e | i
      · rw [hci] at h
        exact absurd (show (Except.error e : Except PyError FallbackScores) = .ok fs from h)
          (by simp)
      · rw [hci] at h
        simp only [except_bind_ok] at h
        rcases hm : mapExcept score_from_text (skillFieldKeys.map (getS ed)) with e | opts
        · rw [hm] at h
          exact absurd (show (Except.error e : Except PyError FallbackScores) = .ok fs from h)
            (by simp)
        · rw [hm] at h
          simp only [except_map_ok] at h
          injection h with h3
          subst h3
          have hb : ∀ x : ℤ, some x ∈ opts → 0 ≤ x ∧ x ≤ 10 := by
            intro x hx
            obtain ⟨a, _, hfa⟩ := mapExcept_ok_forall score_from_text _ opts hm (some x) hx
            exact score_from_text_bounds a hfa
          have hsk := skillOf_bounds opts hb
          exact ⟨coerce_from_notes_bounds ed "presence" hcp,
            coerce_from_notes_bounds ed "intent" hci, hsk, rfl⟩
  · -- edSkillMix: clamping before the mean gives skill 8
    have hc7 : coerce_from_notes edSkillMix "presence" = .ok 7 := by
      have h2 : noteScore "7" = .ok 7 := by
        unfold noteScore
        rw [pf7]
        show (Except.ok (clamp10 (roundHalfEven ((7 : ℕ) : ℚ))) : Except PyError ℤ) = .ok 7
        rw [show roundHalfEven ((7 : ℕ) : ℚ) = 7 by norm_num [roundHalfEven]]
        norm_num [clamp10, min_def, max_def]
      exact h2
    have hc4 : coerce_from_notes edSkillMix "intent" = .ok 4 := by
      have h2 : noteScore "4" = .ok 4 := by
        unfold noteScore
        rw [pf4]
        show (Except.ok (clamp10 (roundHalfEven ((4 : ℕ) : ℚ))) : Except PyError ℤ) = .ok 4
        rw [show roundHalfEven ((4 : ℕ) : ℚ) = 4 by norm_num [roundHalfEven]]
        norm_num [clamp10, min_def, max_def]
      exact h2
    have hmapmix : mapExcept score_from_text (skillFieldKeys.map (getS edSkillMix))
        = .ok [some 10, some 5, none, none, none, none] := by
      rw [show skillFieldKeys.map (getS edSkillMix)
          = [some "15", some "5", some "n/a", some "n/a", some "n/a", some "n/a"] from rfl]
      simp only [mapExcept, hs15, hs5, hsna, except_bind_ok, except_map_ok]
    have hfb : ∃ t, fallback_scores edSkillMix
        = .ok ⟨7, skillOf [some 10, some 5, none, none, none, none], 4, t⟩ := by
      unfold fallback_scores
      rw [hc7, hc4, hmapmix]
      simp only [except_bind_ok, except_map_ok]
      exact ⟨_, rfl⟩
    obtain ⟨t, ht⟩ := hfb
    refine ⟨_, ht, ?_⟩
    show skillOf [some 10, some 5, none, none, none, none] = 8
    unfold skillOf
    rw [show (List.filterMap id [some (10 : ℤ), some 5, none, none, none, none])
        = [10, 5] from rfl]
    norm_num [roundHalfEven, List.sum_cons, List.sum_nil]
  · -- the claim's own (unclamped) formula yields 10 at the same input
    have hq15 : parseFin "15" = some ((15 : ℕ) : ℚ) := by
      unfold parseFin
      rw [pf15]
    have hq5 : parseFin "5" = some ((5 : ℕ) : ℚ) := by
      unfold parseFin
      rw [pf5]
    have hqna : parseFin "n/a" = none := rfl
    have hlist : (skillFieldKeys.map (getS edSkillMix)).filterMap (fun v => v.bind parseFin)
        = [((15 : ℕ) : ℚ), ((5 : ℕ) : ℚ)] := by
      rw [show skillFieldKeys.map (getS edSkillMix)
          = [some "15", some "5", some "n/a", some "n/a", some "n/a", some "n/a"] from rfl]
      simp only [List.filterMap_cons, List.filterMap_nil, Option.bind, hq15, hq5, hqna]
    unfold claim_skill_rounded_mean
    rw [hlist]
    norm_num [roundHalfEven, List.sum_cons, List.sum_nil]

/-- Witness for C3's universally quantified success clause, at the empty
evaluation data. -/
theorem fallback_scores_characterization_witness :
    (0 ≤ (⟨5, 5, 5, 5⟩ : FallbackScores).presence
      ∧ (⟨5, 5, 5, 5⟩ : FallbackScores).presence ≤ 10) ∧
    (0 ≤ (⟨5, 5, 5, 5⟩ : FallbackScores).intent
      ∧ (⟨5, 5, 5, 5⟩ : FallbackScores).intent ≤ 10) ∧
    (0 ≤ (⟨5, 5, 5, 5⟩ : FallbackScores).skill
      ∧ (⟨5, 5, 5, 5⟩ : FallbackScores).skill ≤ 10) ∧
    (⟨5, 5, 5, 5⟩ : FallbackScores).psi
      = weighted_psi (⟨5, 5, 5, 5⟩ : FallbackScores).presence
          (⟨5, 5, 5, 5⟩ : FallbackScores).skill (⟨5, 5, 5, 5⟩ : FallbackScores).intent :=
  fallback_scores_characterization.2.2.2.1 [] ⟨5, 5, 5, 5⟩ fallback_empty_eq

/-- Concrete evaluation-data of the C7 scenario: presence note "8", intent note
"6", all six skill-related fields non-numeric text. -/
def edC7 : EvalData :=
  [("presence", "8"), ("intent", "6"), ("front_court", "strong net play"),
   ("back_court", "solid clears"), ("attacking_play", "aggressive"),
   ("defensive_play", "patient"), ("strokeplay", "smooth"),
   ("footwork", "quick"), ("improvements", "keep working"),
   ("strengths", "consistency")]

/-- The fallback estimator at the C7 scenario input: presence 8, intent 6,
skill defaulted to 5, psi 6.0. -/
theorem fallback_edC7_eq : fallback_scores edC7 = .ok ⟨8, 5, 6, 6⟩ := by
  have hc8 : coerce_from_notes edC7 "presence" = .ok 8 := by
    have h2 : noteScore "8" = .ok 8 := by
      unfold noteScore
      rw [pf8]
      show (Except.ok (clamp10 (roundHalfEven ((8 : ℕ) : ℚ))) : Except PyError ℤ) = .ok 8
      rw [show roundHalfEven ((8 : ℕ) : ℚ) = 8 by norm_num [roundHalfEven]]
      norm_num [clamp10, min_def, max_def]
    exact h2
  have hc6 : coerce_from_notes edC7 "intent" = .ok 6 := by
    have h2 : noteScore "6" = .ok 6 := by
      unfold noteScore
      rw [pf6]
      show (Except.ok (clamp10 (roundHalfEven ((6 : ℕ) : ℚ))) : Except PyError ℤ) = .ok 6
      rw [show roundHalfEven ((6 : ℕ) : ℚ) = 6 by norm_num [roundHalfEven]]
      norm_num [clamp10, min_def, max_def]
    exact h2
  have hmap : mapExcept score_from_text (skillFieldKeys.map (getS edC7))
      = .ok [none, none, none, none, none, none] := rfl
  unfold fallback_scores
  rw [hc8, hc6, hmap]
  simp only [except_bind_ok, except_map_ok, Except.ok.injEq, FallbackScores.mk.injEq]
  refine ⟨trivial, rfl, trivial, ?_⟩
  norm_num [skillOf, roundTo1, roundHalfEven, WEIGHT_TOTAL,
    PSI_WEIGHTS_skill, PSI_WEIGHTS_presence, PSI_WEIGHTS_intent]

/-- C7 counterexample: at the claim's input the fallback derivation does not
yield psi = 6.1 — the exact weighted value 6.05 is a tie at the second
decimal and Python's Decimal rounding is round-half-to-even, which rounds
6.05 down to 6.0. -/
theorem fallback_psi_tie_counterexample :
    fallback_scores edC7 ≠ .ok ⟨8, 5, 6, 61/10⟩ := by
  rw [fallback_edC7_eq]
  intro h
  injection h with h2
  have h3 := congrArg FallbackScores.psi h2
  norm_num at h3

/-- C7 (amended): at the claim's input the fallback derivation yields
presence=8, intent=6, skill=5 (no numeric skill fields), and psi = 6.0: the
exact weighted value 6.05 is rounded to one decimal under round-half-to-even
(banker's rounding, Python's default Decimal context), so the half-way tie
rounds to the even digit, 6.0, not up to 6.1. -/
theorem fallback_psi_tie_rounds_half_even :
    fallback_scores edC7 = .ok ⟨8, 5, 6, 6⟩ := fallback_edC7_eq

/-! ### Decoded JSON values and Python dicts (for `_normalise_payload`, ai.py 285-349)

A decoded JSON value is modelled by `JValue`.  Python dicts are association
lists; assignment replaces the value of an existing key in place (Python dicts
are insertion-ordered) and appends a new key at the end. -/

/-- A decoded JSON value (the result of `json.loads`), extended with the
Python float specials so that values computed by the pipeline itself (such as
a psi coerced from the string "inf") are representable: `num` holds a finite
float or int by its exact rational value, `inf`/`nan` the specials. -/
inductive JValue where
  | null
  | bool (b : Bool)
  | num (q : ℚ)
  | inf (neg : Bool)
  | nan
  | str (s : String)
  | arr (xs : List JValue)
  | obj (fields : List (String × JValue))

/-- The fields of a JSON object / a Python dict. -/
def JFields : Type := List (String × JValue)

/-- Python dict assignment `d[key] = v`: replace in place if the key exists,
else append. -/
def setS {α : Type} : List (String × α) → String → α → List (String × α)
  | [], key, v => [(key, v)]
  | (k, w) :: rest, key, v =>
    if k = key then (k, v) :: rest else (k, w) :: setS rest key v

/-- Python truthiness of a decoded JSON value (`bool(x)`); nonzero floats,
the infinities and nan are truthy. -/
def jTruthy : JValue → Bool
  | .null => false
  | .bool b => b
  | .num q => decide (q ≠ 0)
  | .inf _ => true
  | .nan => true
  | .str s => decide (s ≠ "")
  | .arr xs => ¬ xs.isEmpty
  | .obj f => ¬ f.isEmpty

/-- The spelling under which a hashable JSON value can serve as a dict key in
this model (dict keys are `String` here; the later pipeline only ever looks
up alphabetic field names such as "scores", which no such spelling can
collide with).  Arrays and objects are unhashable: `none`. -/
def keyRepr : JValue → Option String
  | .str s => some s
  | .num q => some (ratRepr q)
  | .bool b => some (if b then "True" else "False")
  | .null => some "None"
  | .inf b => some (if b then "-inf" else "inf")
  | .nan => some "nan"
  | .arr _ => none
  | .obj _ => none

/-- One element of `dict(iterable)`: a two-element array with a hashable key,
a two-character string, or a two-key object (iterating a dict yields its
keys) give a key/value pair; a two-element array with an unhashable (array or
object) key raises TypeError; an iterable element of the wrong length raises
ValueError; a non-iterable element (null, bool, number) raises TypeError. -/
def dictPair (el : JValue) : Except PyError (String × JValue) :=
  match el with
  | .arr [k, v] =>
    match keyRepr k with
    | some ks => .ok (ks, v)
    | none => .error .typeError
  | .arr _ => .error .valueError
  | .str s =>
    match s.data with
    | [c1, c2] => .ok (⟨[c1]⟩, .str ⟨[c2]⟩)
    | _ => .error .valueError
  | .obj o =>
    match o with
    | [(k1, _), (k2, _)] => .ok (k1, .str k2)
    | _ => .error .valueError
  | _ => .error .typeError

/-- `dict(iterable)` on a list of elements, left to right, later pairs
overriding earlier ones in place (Python dict update semantics). -/
def dictOfPairsAux (acc : JFields) : List JValue → Except PyError JFields
  | [] => .ok acc
  | el :: rest => (dictPair el).bind (fun p => dictOfPairsAux (setS acc p.1 p.2) rest)

/-- The `dict(x)` conversion as CPython performs it on a decoded JSON value:
an object copies its fields; an array is consumed as an iterable of
key/value pairs; a string iterates its characters (each a length-1 sequence,
so any non-empty string raises ValueError and the empty string gives the
empty dict); null, booleans and numbers are not iterable (TypeError). -/
def topDictCoerce (v : JValue) : Except PyError JFields :=
  match v with
  | .obj f => .ok f
  | .arr xs => dictOfPairsAux [] xs
  | .str s => dictOfPairsAux [] (s.data.map (fun c => .str ⟨[c]⟩))
  | _ => .error .typeError

/-- Model of `dict(x or {})` applied to the payload's `"scores"` entry: a
falsy value yields the empty dict, anything else goes through `dict(x)`. -/
def scoresDictOf (v : JValue) : Except PyError JFields :=
  if jTruthy v = false then .ok [] else topDictCoerce v

/-- The string branch of `_coerce_score`: `int(round(float(str(value))))`
inside `try/except (TypeError, ValueError)` — a malformed literal or a NaN
(whose `round` raises ValueError) is caught and yields None, but an infinite
parse makes `round` raise OverflowError, which is NOT caught. -/
def strScore (s : String) : Except PyError (Option ℤ) :=
  if s = "" then .ok none
  else match parseFloat s with
    | none => .ok none
    | some (.finite q) => .ok (some (roundHalfEven q))
    | some (.inf _) => .error .overflowError
    | some .nan => .ok none

/-- `_coerce_score` (ai.py 294-302): None and the empty string yield None;
ints, floats and bools (ints in Python) take the `int(round(float(value)))`
branch, which sits OUTSIDE any try/except — so a float infinity raises
OverflowError and a float NaN raises ValueError, both uncaught; other strings
go to `strScore`; lists and dicts fail `float(str(...))` with a caught
ValueError. -/
def coerce_score (v : JValue) : Except PyError (Option ℤ) :=
  match v with
  | .null => .ok none
  | .num q => .ok (some (roundHalfEven q))
  | .bool b => .ok (some (if b then 1 else 0))
  | .inf _ => .error .overflowError
  | .nan => .error .valueError
  | .str s => strScore s
  | .arr _ => .ok none
  | .obj _ => .ok none

/-- Python `float(v)` as used for the `psi` entry inside
`try/except (TypeError, ValueError)`: numbers and the specials pass through
(float("inf") is an infinite float, not an error), bools become 0/1, strings
are parsed, anything else raises a caught TypeError and the result is None.
-/
def float_coerce (v : JValue) : Option PyFloat :=
  match v with
  | .num q => some (.finite q)
  | .inf b => some (.inf b)
  | .nan => some .nan
  | .bool b => some (.finite (if b then 1 else 0))
  | .str s => parseFloat s
  | _ => none

/-- Store a Python float (or None) back into a dict value. -/
def pyFloatJ : Option PyFloat → JValue
  | some (.finite q) => .num q
  | some (.inf b) => .inf b
  | some .nan => .nan
  | none => .null

/-- Psi value written back by `scores.update`: float-coerced or null. -/
def normPsiJ (sd : JFields) : JValue :=
  pyFloatJ (float_coerce ((getS sd "psi").getD .null))

/-- The four assignments of the `scores.update({...})` block. -/
def updFields (sd : JFields) (p s i : ℤ) (psi : JValue) : JFields :=
  setS (setS (setS (setS sd "presence" (.num (p : ℚ))) "skill" (.num (s : ℚ)))
    "intent" (.num (i : ℚ))) "psi" psi

/-- The `scores.update({...})` block of `_normalise_payload` (ai.py 304-320):
presence/skill/intent are best-effort coerced with default 5 (no clamping),
in source order, any uncaught exception propagating; psi is float-coerced or
set to null (never raising). -/
def updateScores (sd : JFields) : Except PyError JFields :=
  (coerce_score ((getS sd "presence").getD .null)).bind (fun pOpt =>
  (coerce_score ((getS sd "skill").getD .null)).bind (fun sOpt =>
  (coerce_score ((getS sd "intent").getD .null)).map (fun iOpt =>
    updFields sd (pOpt.getD 5) (sOpt.getD 5) (iOpt.getD 5) (normPsiJ sd))))

/-- The five list-valued report fields normalised by `_normalise_payload`,
in source order. -/
def listFieldKeys : List String :=
  ["player_strengths", "player_weaknesses", "actions_strengths",
   "actions_weaknesses", "summary_bullets"]

/-- One iteration of the list-field loop (ai.py 324-335): wrap a bare string
into a one-element list, keep lists unchanged, and replace anything else
(including an absent key) with the empty list. -/
def listifyStep (f : JFields) (key : String) : JFields :=
  match getS f key with
  | some (.str s) => setS f key (.arr [.str s])
  | some (.arr _) => f
  | some _ => setS f key (.arr [])
  | none => setS f key (.arr [])

/-- Placeholder inserted when the payload has no usable player_evaluation
(ai.py 337-341). -/
def placeholder_evaluation : String :=
  "Gemini response did not include an evaluation. Use coach notes until the AI summary is available."

/-- Generic course_forward default (ai.py 343-347). -/
def course_forward_default : String :=
  "Coach should provide follow-up plan based on session goals."

/-- The player_evaluation defaulting step (ai.py 337-341): replace an absent
or falsy value with the fixed placeholder.  The source condition
`"player_evaluation" not in normalised or not normalised["player_evaluation"]`
is encoded as falsiness of the value-or-null (an absent key and a null value
are both falsy and both get the placeholder). -/
def evalStep (f : JFields) : JFields :=
  if jTruthy ((getS f "player_evaluation").getD .null) then f
  else setS f "player_evaluation" (.str placeholder_evaluation)

/-- The course_forward default drawn from the evaluation's improvements note
(ai.py 344-347). -/
def improvDefault (ed : EvalData) : String :=
  (getS ed "improvements").getD course_forward_default

/-- The course_forward defaulting step (ai.py 343-347): replace an absent or
falsy value with the evaluation's improvements note (or the generic default);
the `not in`-or-falsy condition is encoded as in `evalStep`. -/
def cfStep (f : JFields) (ed : EvalData) : JFields :=
  if jTruthy ((getS f "course_forward").getD .null) then f
  else setS f "course_forward" (.str (improvDefault ed))

/-- Body of `_normalise_payload` once the top-level dict copy has succeeded:
scores normalization, list-field normalization, then the two narrative
defaults, each step mutating the same dict.  The `dict(...)` call on the
scores entry and the three score coercions can raise; everything after is
total. -/
def normaliseFields (f : JFields) (ed : EvalData) : Except PyError JFields :=
  (scoresDictOf ((getS f "scores").getD .null)).bind (fun sd =>
    (updateScores sd).map (fun u =>
      cfStep (evalStep (listFieldKeys.foldl listifyStep
        (setS f "scores" (.obj u)))) ed))

/-- `_normalise_payload` (ai.py 285-349) on an arbitrary decoded JSON value. -/
def normalise_payload (payload : JValue) (ed : EvalData) : Except PyError JFields :=
  (topDictCoerce payload).bind (fun f => normaliseFields f ed)

/-! ### Dict lemmas -/

theorem getS_setS_self {α : Type} (l : List (String × α)) (k : String) (v : α) :
    getS (setS l k v) k = some v := by
  induction l with
  | nil => simp [setS, getS]
  | cons hd tl ih =>
    obtain ⟨k', w⟩ := hd
    by_cases h : k' = k
    · simp [setS, getS, h]
    · simp [setS, getS, h, ih]

theorem getS_setS_ne {α : Type} (l : List (String × α)) {k k' : String} (v : α)
    (h : k' ≠ k) : getS (setS l k v) k' = getS l k' := by
  have hkk : ¬ (k = k') := fun hk => h hk.symm
  induction l with
  | nil => simp [setS, getS, hkk]
  | cons hd tl ih =>
    obtain ⟨k₀, w⟩ := hd
    by_cases h0 : k₀ = k
    · subst h0
      simp [setS, getS, hkk]
    · by_cases h1 : k₀ = k'
      · simp [setS, getS, h0, h1, h]
      · simp [setS, getS, h0, h1, ih]

theorem setS_getS_self {α : Type} (l : List (String × α)) {k : String} {v : α}
    (h : getS l k = some v) : setS l k v = l := by
  induction l with
  | nil => simp [getS] at h
  | cons hd tl ih =>
    obtain ⟨k₀, w⟩ := hd
    by_cases h0 : k₀ = k
    · simp [getS, h0] at h
      simp [setS, h0, h]
    · simp [getS, h0] at h
      simp [setS, h0, ih h]

theorem setS_ne_nil {α : Type} (l : List (String × α)) (k : String) (v : α) :
    setS l k v ≠ [] := by
  cases l with
  | nil => simp [setS]
  | cons hd tl =>
    obtain ⟨k₀, w⟩ := hd
    by_cases h0 : k₀ = k <;> simp [setS, h0]

/-! ### Step lemmas for `_normalise_payload` -/

theorem roundHalfEven_intCast (n : ℤ) : roundHalfEven ((n : ℤ) : ℚ) = n := by
  unfold roundHalfEven
  rw [Int.floor_intCast]
  norm_num

theorem coerce_score_intCast (n : ℤ) :
    coerce_score (.num ((n : ℤ) : ℚ)) = .ok (some n) := by
  simp [coerce_score, roundHalfEven_intCast]

theorem listifyStep_getS_ne (f : JFields) {key k : String} (h : k ≠ key) :
    getS (listifyStep f key) k = getS f k := by
  unfold listifyStep
  rcases hg : getS f key with _ | v
  · rw [getS_setS_ne _ _ h]
  · cases v <;> first
      | rfl
      | rw [getS_setS_ne _ _ h]

theorem listifyStep_arr (f : JFields) (key : String) :
    ∃ xs, getS (listifyStep f key) key = some (.arr xs) := by
  unfold listifyStep
  rcases hg : getS f key with _ | v
  · exact ⟨[], getS_setS_self _ _ _⟩
  · cases v with
    | arr xs => exact ⟨xs, hg⟩
    | str s => exact ⟨[.str s], getS_setS_self _ _ _⟩
    | null => exact ⟨[], getS_setS_self _ _ _⟩
    | bool b => exact ⟨[], getS_setS_self _ _ _⟩
    | num q => exact ⟨[], getS_setS_self _ _ _⟩
    | inf b => exact ⟨[], getS_setS_self _ _ _⟩
    | nan => exact ⟨[], getS_setS_self _ _ _⟩
    | obj g => exact ⟨[], getS_setS_self _ _ _⟩

theorem listifyStep_id (f : JFields) (key : String)
    (h : ∃ xs, getS f key = some (.arr xs)) : listifyStep f key = f := by
  obtain ⟨xs, hg⟩ := h
  unfold listifyStep
  rw [hg]

theorem foldl_listify_getS_notmem (ks : List String) (f : JFields) (k : String)
    (h : k ∉ ks) : getS (ks.foldl listifyStep f) k = getS f k := by
  induction ks generalizing f with
  | nil => rfl
  | cons key rest ih =>
    have hne : k ≠ key := fun hk => h (hk ▸ List.mem_cons_self key rest)
    have hrest : k ∉ rest := fun hk => h (List.mem_cons_of_mem _ hk)
    simp only [List.foldl_cons]
    rw [ih _ hrest, listifyStep_getS_ne f hne]

theorem foldl_listify_preserve_arr (ks : List String) (f : JFields) (k : String)
    (h : ∃ xs, getS f k = some (.arr xs)) :
    ∃ xs, getS (ks.foldl listifyStep f) k = some (.arr xs) := by
  induction ks generalizing f with
  | nil => exact h
  | cons key rest ih =>
    simp only [List.foldl_cons]
    apply ih
    by_cases hk : k = key
    · subst hk
      exact listifyStep_arr f k
    · rw [listifyStep_getS_ne f hk]
      exact h

theorem foldl_listify_arr_mem (ks : List String) :
    ∀ (f : JFields) (k : String), k ∈ ks →
      ∃ xs, getS (ks.foldl listifyStep f) k = some (.arr xs) := by
  induction ks with
  | nil => intro f k h; cases h
  | cons key rest ih =>
    intro f k h
    simp only [List.foldl_cons]
    by_cases hk : k = key
    · subst hk
      exact foldl_listify_preserve_arr rest _ k (listifyStep_arr f k)
    · have hmem : k ∈ rest := by
        rcases List.mem_cons.mp h with h1 | h2
        · exact absurd h1 hk
        · exact h2
      exact ih _ k hmem

theorem foldl_listify_id (ks : List String) (f : JFields)
    (h : ∀ k ∈ ks, ∃ xs, getS f k = some (.arr xs)) : ks.foldl listifyStep f = f := by
  induction ks with
  | nil => rfl
  | cons key rest ih =>
    simp only [List.foldl_cons]
    rw [listifyStep_id f key (h key (List.mem_cons_self _ _))]
    exact ih (fun k hk => h k (List.mem_cons_of_mem _ hk))

theorem evalStep_getS_ne (f : JFields) {k : String} (h : k ≠ "player_evaluation") :
    getS (evalStep f) k = getS f k := by
  unfold evalStep
  split_ifs
  · rfl
  · rw [getS_setS_ne _ _ h]

theorem evalStep_post (f : JFields) :
    ∃ v, getS (evalStep f) "player_evaluation" = some v ∧ jTruthy v = true := by
  unfold evalStep
  split_ifs with ht
  · rcases hg : getS f "player_evaluation" with _ | v
    · rw [hg] at ht; simp [jTruthy] at ht
    · rw [hg] at ht
      exact ⟨v, rfl, by simpa using ht⟩
  · exact ⟨.str placeholder_evaluation, getS_setS_self _ _ _, by decide⟩

theorem evalStep_id (f : JFields) {v : JValue}
    (hg : getS f "player_evaluation" = some v) (ht : jTruthy v = true) :
    evalStep f = f := by
  unfold evalStep
  rw [hg]
  simp [ht]

theorem cfStep_getS_ne (f : JFields) (ed : EvalData) {k : String}
    (h : k ≠ "course_forward") : getS (cfStep f ed) k = getS f k := by
  unfold cfStep
  split_ifs
  · rfl
  · rw [getS_setS_ne _ _ h]

theorem cfStep_post (f : JFields) (ed : EvalData) :
    ∃ v, getS (cfStep f ed) "course_forward" = some v ∧
      (jTruthy v = true ∨ v = .str (improvDefault ed)) := by
  unfold cfStep
  split_ifs with ht
  · rcases hg : getS f "course_forward" with _ | v
    · rw [hg] at ht; simp [jTruthy] at ht
    · rw [hg] at ht
      exact ⟨v, rfl, Or.inl (by simpa using ht)⟩
  · exact ⟨.str (improvDefault ed), getS_setS_self _ _ _, Or.inr rfl⟩

theorem cfStep_id (f : JFields) (ed : EvalData) {v : JValue}
    (hg : getS f "course_forward" = some v)
    (hv : jTruthy v = true ∨ v = .str (improvDefault ed)) :
    cfStep f ed = f := by
  unfold cfStep
  rw [hg]
  by_cases ht : jTruthy v = true
  · simp [ht]
  · rcases hv with h1 | h2
    · exact absurd h1 ht
    · rw [if_neg (by simpa using ht), ← h2]
      exact setS_getS_self f hg

/-! ### Facts about the scores update -/

theorem scoresDictOf_obj (f : JFields) : scoresDictOf (.obj f) = .ok f := by
  cases f <;> rfl

theorem getS_updFields_presence (sd : JFields) (p s i : ℤ) (psi : JValue) :
    getS (updFields sd p s i psi) "presence" = some (.num (p : ℚ)) := by
  unfold updFields
  rw [getS_setS_ne _ _ (by decide : "presence" ≠ "psi")]
  rw [getS_setS_ne _ _ (by decide : "presence" ≠ "intent")]
  rw [getS_setS_ne _ _ (by decide : "presence" ≠ "skill")]
  exact getS_setS_self _ _ _

theorem getS_updFields_skill (sd : JFields) (p s i : ℤ) (psi : JValue) :
    getS (updFields sd p s i psi) "skill" = some (.num (s : ℚ)) := by
  unfold updFields
  rw [getS_setS_ne _ _ (by decide : "skill" ≠ "psi")]
  rw [getS_setS_ne _ _ (by decide : "skill" ≠ "intent")]
  exact getS_setS_self _ _ _

theorem getS_updFields_intent (sd : JFields) (p s i : ℤ) (psi : JValue) :
    getS (updFields sd p s i psi) "intent" = some (.num (i : ℚ)) := by
  unfold updFields
  rw [getS_setS_ne _ _ (by decide : "intent" ≠ "psi")]
  exact getS_setS_self _ _ _

theorem getS_updFields_psi (sd : JFields) (p s i : ℤ) (psi : JValue) :
    getS (updFields sd p s i psi) "psi" = some psi := by
  unfold updFields
  exact getS_setS_self _ _ _

theorem float_coerce_pyFloatJ : ∀ o : Option PyFloat, float_coerce (pyFloatJ o) = o := by
  intro o
  rcases o with _ | pf
  · rfl
  · rcases pf with q | b | _ <;> rfl

theorem updFields_self (g : JFields) (p s i : ℤ) (psi : JValue)
    (hp : getS g "presence" = some (.num (p : ℚ)))
    (hs : getS g "skill" = some (.num (s : ℚ)))
    (hi : getS g "intent" = some (.num (i : ℚ)))
    (hpsi : getS g "psi" = some psi) :
    updFields g p s i psi = g := by
  unfold updFields
  rw [setS_getS_self g hp, setS_getS_self g hs, setS_getS_self g hi,
    setS_getS_self g hpsi]

theorem updateScores_ok (sd : JFields) (pOpt sOpt iOpt : Option ℤ)
    (hp : coerce_score ((getS sd "presence").getD .null) = .ok pOpt)
    (hs : coerce_score ((getS sd "skill").getD .null) = .ok sOpt)
    (hi : coerce_score ((getS sd "intent").getD .null) = .ok iOpt) :
    updateScores sd = .ok (updFields sd (pOpt.getD 5) (sOpt.getD 5) (iOpt.getD 5)
      (normPsiJ sd)) := by
  unfold updateScores
  rw [hp, hs, hi]
  rfl

theorem normPsiJ_stable (sd : JFields) (g : JFields)
    (hg : getS g "psi" = some (normPsiJ sd)) : normPsiJ g = normPsiJ sd := by
  show pyFloatJ (float_coerce ((getS g "psi").getD .null)) = normPsiJ sd
  rw [hg]
  show pyFloatJ (float_coerce
    (pyFloatJ (float_coerce ((getS sd "psi").getD .null)))) = normPsiJ sd
  rw [float_coerce_pyFloatJ]
  rfl

theorem updateScores_idem (sd u : JFields) (h : updateScores sd = .ok u) :
    updateScores u = .ok u := by
  unfold updateScores at h
  rcases hp : coerce_score ((getS sd "presence").getD .null) with e | pOpt
  · rw [hp] at h
    exact absurd (show (Except.error e : Except PyError JFields) = .ok u from h) (by simp)
  · rw [hp] at h
    simp only [except_bind_ok] at h
    rcases hs : coerce_score ((getS sd "skill").getD .null) with e | sOpt
    · rw [hs] at h
      exact absurd (show (Except.error e : Except PyError JFields) = .ok u from h) (by simp)
    · rw [hs] at h
      simp only [except_bind_ok] at h
      rcases hi : coerce_score ((getS sd "intent").getD .null) with e | iOpt
      · rw [hi] at h
        exact absurd (show (Except.error e : Except PyError JFields) = .ok u from h) (by simp)
      · rw [hi] at h
        simp only [except_map_ok] at h
        injection h with h2
        subst h2
        have hgp := getS_updFields_presence sd (pOpt.getD 5) (sOpt.getD 5) (iOpt.getD 5)
          (normPsiJ sd)
        have hgs := getS_updFields_skill sd (pOpt.getD 5) (sOpt.getD 5) (iOpt.getD 5)
          (normPsiJ sd)
        have hgi := getS_updFields_intent sd (pOpt.getD 5) (sOpt.getD 5) (iOpt.getD 5)
          (normPsiJ sd)
        have hgpsi := getS_updFields_psi sd (pOpt.getD 5) (sOpt.getD 5) (iOpt.getD 5)
          (normPsiJ sd)
        have hp2 : coerce_score ((getS (updFields sd (pOpt.getD 5) (sOpt.getD 5)
            (iOpt.getD 5) (normPsiJ sd)) "presence").getD .null)
            = .ok (some (pOpt.getD 5)) := by
          rw [hgp]
          exact coerce_score_intCast _
        have hs2 : coerce_score ((getS (updFields sd (pOpt.getD 5) (sOpt.getD 5)
            (iOpt.getD 5) (normPsiJ sd)) "skill").getD .null)
            = .ok (some (sOpt.getD 5)) := by
          rw [hgs]
          exact coerce_score_intCast _
        have hi2 : coerce_score ((getS (updFields sd (pOpt.getD 5) (sOpt.getD 5)
            (iOpt.getD 5) (normPsiJ sd)) "intent").getD .null)
            = .ok (some (iOpt.getD 5)) := by
          rw [hgi]
          exact coerce_score_intCast _
        rw [updateScores_ok _ (some (pOpt.getD 5)) (some (sOpt.getD 5))
          (some (iOpt.getD 5)) hp2 hs2 hi2]
        rw [normPsiJ_stable sd _ hgpsi]
        simp only [Option.getD_some]
        rw [updFields_self _ (pOpt.getD 5) (sOpt.getD 5) (iOpt.getD 5)
          (normPsiJ sd) hgp hgs hgi hgpsi]

/-- Keys of the payload touched after the scores step are distinct from
"scores" and from each other where needed. -/
theorem listFieldKeys_disjoint :
    "scores" ∉ listFieldKeys ∧
    (∀ k ∈ listFieldKeys, k ≠ "course_forward" ∧ k ≠ "player_evaluation") := by
  decide

/-- C6: normalization is idempotent — whenever `_normalise_payload` succeeds,
feeding its own output (with the same evaluation data) back through
`_normalise_payload` reproduces that output exactly. -/
theorem normalise_payload_idempotent :
    ∀ (p : JValue) (ed : EvalData) (q : JFields),
      normalise_payload p ed = .ok q → normalise_payload (.obj q) ed = .ok q := by
  intro p ed q h
  -- unpack the successful first pass
  have h1 : (topDictCoerce p).bind (fun f => normaliseFields f ed) = .ok q := h
  rcases htc : topDictCoerce p with e | f
  · rw [htc] at h1
    exact absurd h1 (by simp [Except.bind])
  · rw [htc] at h1
    have h2 : normaliseFields f ed = .ok q := h1
    unfold normaliseFields at h2
    rcases hsc : scoresDictOf ((getS f "scores").getD .null) with e | sd
    · rw [hsc] at h2
      exact absurd (show (Except.error e : Except PyError JFields) = .ok q from h2)
        (by simp)
    · rw [hsc] at h2
      simp only [except_bind_ok] at h2
      rcases hup : updateScores sd with e | u
      · rw [hup] at h2
        exact absurd (show (Except.error e : Except PyError JFields) = .ok q from h2)
          (by simp)
      · rw [hup] at h2
        simp only [except_map_ok] at h2
        injection h2 with h4
        -- names for the intermediate dicts of the first pass
        set f1 := setS f "scores" (.obj u) with hf1
        set f2 := listFieldKeys.foldl listifyStep f1 with hf2
        set f3 := evalStep f2 with hf3
        -- the output q and its key structure
        have hq : cfStep f3 ed = q := h4
        have hscores_q : getS q "scores" = some (.obj u) := by
          rw [← hq]
          rw [cfStep_getS_ne _ _ (by decide : "scores" ≠ "course_forward")]
          rw [hf3, evalStep_getS_ne _ (by decide : "scores" ≠ "player_evaluation")]
          rw [hf2, foldl_listify_getS_notmem _ _ _ listFieldKeys_disjoint.1]
          rw [hf1]
          exact getS_setS_self _ _ _
        have harr_q : ∀ k ∈ listFieldKeys, ∃ xs, getS q k = some (.arr xs) := by
          intro k hk
          obtain ⟨hkc, hkp⟩ := listFieldKeys_disjoint.2 k hk
          rw [← hq, cfStep_getS_ne _ _ hkc, hf3, evalStep_getS_ne _ hkp, hf2]
          exact foldl_listify_arr_mem listFieldKeys f1 k hk
        have hpe_q : ∃ v, getS q "player_evaluation" = some v ∧ jTruthy v = true := by
          obtain ⟨v, hv, ht⟩ := evalStep_post f2
          refine ⟨v, ?_, ht⟩
          rw [← hq, cfStep_getS_ne _ _ (by decide : "player_evaluation" ≠ "course_forward")]
          rw [hf3]
          exact hv
        have hcf_q : ∃ v, getS q "course_forward" = some v ∧
            (jTruthy v = true ∨ v = .str (improvDefault ed)) := by
          obtain ⟨v, hv, hc⟩ := cfStep_post f3 ed
          exact ⟨v, hq ▸ hv, hc⟩
        -- second pass
        have hstart : normalise_payload (.obj q) ed = normaliseFields q ed := rfl
        have hrw : scoresDictOf ((getS q "scores").getD .null) = .ok u := by
          rw [hscores_q]
          exact scoresDictOf_obj _
        rw [hstart]
        unfold normaliseFields
        rw [hrw]
        simp only [except_bind_ok]
        rw [updateScores_idem sd u hup]
        simp only [except_map_ok]
        rw [setS_getS_self q hscores_q]
        rw [foldl_listify_id listFieldKeys q harr_q]
        obtain ⟨v, hv, ht⟩ := hpe_q
        rw [evalStep_id q hv ht]
        obtain ⟨w, hw, hc⟩ := hcf_q
        rw [cfStep_id q ed hw hc]

/-- The result of normalising the empty payload against empty evaluation data:
all scores default to 5, psi is null, list fields become empty lists, and the
two narrative fields receive their placeholders. -/
def q0 : JFields :=
  [("scores", .obj [("presence", .num ((5 : ℤ) : ℚ)), ("skill", .num ((5 : ℤ) : ℚ)),
      ("intent", .num ((5 : ℤ) : ℚ)), ("psi", .null)]),
   ("player_strengths", .arr []), ("player_weaknesses", .arr []),
   ("actions_strengths", .arr []), ("actions_weaknesses", .arr []),
   ("summary_bullets", .arr []),
   ("player_evaluation", .str placeholder_evaluation),
   ("course_forward", .str course_forward_default)]

/-- Witness for C6: the idempotence theorem applied to the empty payload,
whose normalisation is the concrete dict `q0`. -/
theorem normalise_payload_idempotent_witness :
    normalise_payload (.obj q0) [] = .ok q0 :=
  normalise_payload_idempotent (.obj []) [] q0 rfl

/-- C4 is refuted by the code: `_normalise_payload` is not total.  The
`dict(normalised.get("scores") or {})` call raises when the scores entry is a
truthy non-mapping: a non-empty string raises ValueError (each character is a
length-1 sequence) and a number raises TypeError, so normalization itself
raises instead of deferring to schema validation. -/
theorem normalise_payload_raises_on_nonobject_scores :
    normalise_payload (.obj [("scores", .str "ab")]) [] = .error .valueError ∧
    normalise_payload (.obj [("scores", .num 5)]) [] = .error .typeError :=
  ⟨rfl, rfl⟩

/-! ### ReportSchema: pydantic validation of the normalised payload
(ai.py 137-152, `Scores` and `PSIReport`)

The pydantic models are embedded as validators over `JValue`: `conint(ge=0,
le=10)` accepts an integer-valued JSON number in [0,10] (after normalisation
the three component scores are always plain integers); `float | None` accepts
a number or null; `str` requires a JSON string; `list[str]` requires an array
of strings and defaults to `[]` when the key is absent. -/

/-- The validated Scores model: presence/skill/intent are `conint(ge=0,
le=10)`, psi an optional float (any float — pydantic accepts the IEEE
specials). -/
structure Scores where
  presence : ℤ
  skill : ℤ
  intent : ℤ
  psi : Option PyFloat
  deriving Repr, DecidableEq

/-- Validation of a `conint(ge=0, le=10)` field against a JSON value. -/
def as_conint (v : JValue) : Option ℤ :=
  match v with
  | .num q => if q.den = 1 ∧ 0 ≤ q.num ∧ q.num ≤ 10 then some q.num else none
  | _ => none

/-- Validation of the optional float `psi` field (absent and null both give
`None`; a number or float special passes through; a numeric string is
lax-coerced). -/
def as_psi (o : Option JValue) : Option (Option PyFloat) :=
  match o with
  | none => some none
  | some .null => some none
  | some (.num q) => some (some (.finite q))
  | some (.inf b) => some (some (.inf b))
  | some .nan => some (some .nan)
  | some (.str s) => (parseFloat s).map some
  | some _ => none

/-- `Scores.model_validate` on a JSON value. -/
def validate_scores (v : JValue) : Option Scores :=
  match v with
  | .obj sd => do
    let p ← as_conint ((getS sd "presence").getD .null)
    let s ← as_conint ((getS sd "skill").getD .null)
    let i ← as_conint ((getS sd "intent").getD .null)
    let psi ← as_psi (getS sd "psi")
    some ⟨p, s, i, psi⟩
  | _ => none

/-- The validated PSIReport model (ai.py 144-152). -/
structure PSIReport where
  scores : Scores
  player_evaluation : String
  player_strengths : List String
  player_weaknesses : List String
  actions_strengths : List String
  actions_weaknesses : List String
  course_forward : String
  summary_bullets : List String
  deriving Repr, DecidableEq

/-- Validation of a required `str` field. -/
def as_str (v : JValue) : Option String :=
  match v with
  | .str s => some s
  | _ => none

/-- Validation of a `list[str]` field. -/
def as_str_list (v : JValue) : Option (List String) :=
  match v with
  | .arr xs => xs.mapM as_str
  | _ => none

/-- Validation of a `list[str]` field with `default_factory=list`: an absent
key yields the empty list, a present value must be an array of strings. -/
def as_str_list_opt (o : Option JValue) : Option (List String) :=
  match o with
  | none => some []
  | some v => as_str_list v

/-- `PSIReport.model_validate` on a normalised payload. -/
def validate_psi_report (f : JFields) : Option PSIReport := do
  let sv ← getS f "scores"
  let scores ← validate_scores sv
  let pe ← (getS f "player_evaluation").bind as_str
  let ps ← as_str_list_opt (getS f "player_strengths")
  let pw ← as_str_list_opt (getS f "player_weaknesses")
  let acts ← as_str_list_opt (getS f "actions_strengths")
  let actw ← as_str_list_opt (getS f "actions_weaknesses")
  let cf ← (getS f "course_forward").bind as_str
  let sb ← as_str_list_opt (getS f "summary_bullets")
  some ⟨scores, pe, ps, pw, acts, actw, cf, sb⟩

/-- How the derived fields of a normalised payload look from the outside:
when the scores entry is an object and the score coercions succeed,
normalization succeeds and writes back exactly the coerced score dict. -/
theorem normalise_payload_scores_object (f : JFields) (sd : JFields) (ed : EvalData)
    (u : JFields) (hsc : getS f "scores" = some (.obj sd))
    (hup : updateScores sd = .ok u) :
    ∃ g, normalise_payload (.obj f) ed = .ok g ∧
      getS g "scores" = some (.obj u) := by
  have hstart : normalise_payload (.obj f) ed = normaliseFields f ed := rfl
  have hrw : scoresDictOf ((getS f "scores").getD .null) = .ok sd := by
    rw [hsc]
    exact scoresDictOf_obj sd
  refine ⟨cfStep (evalStep (listFieldKeys.foldl listifyStep
    (setS f "scores" (.obj u)))) ed, ?_, ?_⟩
  · rw [hstart]
    unfold normaliseFields
    rw [hrw]
    simp only [except_bind_ok]
    rw [hup]
    rfl
  · rw [cfStep_getS_ne _ _ (by decide : "scores" ≠ "course_forward")]
    rw [evalStep_getS_ne _ (by decide : "scores" ≠ "player_evaluation")]
    rw [foldl_listify_getS_notmem _ _ _ listFieldKeys_disjoint.1]
    exact getS_setS_self _ _ _

/-- C5 is contradicted by the code on one count: score coercion is not total
on object-shaped scores entries.  Ints, floats and numeric strings (exponent
forms such as "1e2" included) round to the nearest integer; a failed coercion
(missing key, non-numeric or NaN string, null, empty string) defaults to 5;
psi is float-coerced (the string "inf" becomes the float infinity) or null;
an out-of-range coerced integer such as 15 is NOT clamped and the Scores
schema validation rejects it.  But a scores value parsing to an infinite
float makes `int(round(float(...)))` raise OverflowError — not caught by the
`except (TypeError, ValueError)` clause — so `_normalise_payload` raises
instead of defaulting that value to 5. -/
theorem normalise_scores_coercion :
    (∀ (sd : JFields) (pOpt sOpt iOpt : Option ℤ),
        coerce_score ((getS sd "presence").getD .null) = .ok pOpt →
        coerce_score ((getS sd "skill").getD .null) = .ok sOpt →
        coerce_score ((getS sd "intent").getD .null) = .ok iOpt →
        updateScores sd = .ok (updFields sd (pOpt.getD 5) (sOpt.getD 5) (iOpt.getD 5)
          (normPsiJ sd)) ∧
        getS (updFields sd (pOpt.getD 5) (sOpt.getD 5) (iOpt.getD 5) (normPsiJ sd))
          "presence" = some (.num ((pOpt.getD 5 : ℤ) : ℚ)) ∧
        getS (updFields sd (pOpt.getD 5) (sOpt.getD 5) (iOpt.getD 5) (normPsiJ sd))
          "skill" = some (.num ((sOpt.getD 5 : ℤ) : ℚ)) ∧
        getS (updFields sd (pOpt.getD 5) (sOpt.getD 5) (iOpt.getD 5) (normPsiJ sd))
          "intent" = some (.num ((iOpt.getD 5 : ℤ) : ℚ)) ∧
        getS (updFields sd (pOpt.getD 5) (sOpt.getD 5) (iOpt.getD 5) (normPsiJ sd))
          "psi" = some (normPsiJ sd)) ∧
    (∀ (f sd u : JFields) (ed : EvalData),
        getS f "scores" = some (.obj sd) → updateScores sd = .ok u →
        ∃ g, normalise_payload (.obj f) ed = .ok g ∧ getS g "scores" = some (.obj u)) ∧
    coerce_score (.num 7) = .ok (some 7) ∧
    coerce_score (.num (32/5)) = .ok (some 6) ∧
    coerce_score (.str "6.4") = .ok (some 6) ∧
    coerce_score (.str " 9 ") = .ok (some 9) ∧
    coerce_score (.str "1e2") = .ok (some 100) ∧
    coerce_score .null = .ok none ∧
    coerce_score (.str "") = .ok none ∧
    coerce_score (.str "high") = .ok none ∧
    coerce_score (.str "nan") = .ok none ∧
    coerce_score (.str "inf") = .error .overflowError ∧
    float_coerce (.str "inf") = some (.inf false) ∧
    float_coerce (.str "bad") = none ∧
    normalise_payload (.obj [("scores", .obj [("presence", .str "inf")])]) []
      = .error .overflowError ∧
    coerce_score (.num 15) = .ok (some 15) ∧
    updateScores [("presence", .num 15)]
      = .ok (updFields [("presence", .num 15)] 15 5 5 .null) ∧
    validate_scores (.obj (updFields [("presence", .num 15)] 15 5 5 .null)) = none := by
  have pf64 : parseFloat "6.4" = some (.finite (32/5)) := by
    rw [show parseFloat "6.4"
        = some (mkFinite (mantissaVal ['6'] ['4'] * (10 : ℚ) ^ (0 : ℤ))) from rfl]
    have hv : mantissaVal ['6'] ['4'] * (10 : ℚ) ^ (0 : ℤ) = 32/5 := by
      unfold mantissaVal
      rw [show digitsToNat ['6'] = 6 from rfl, show digitsToNat ['4'] = 4 from rfl]
      norm_num
    rw [hv, mkFinite_small (by norm_num) (by norm_num)]
  have pf9 : parseFloat " 9 " = some (.finite ((9 : ℕ) : ℚ)) :=
    pfDigits " 9 " ['9'] 9 rfl rfl (by norm_num)
  have pf1e2 : parseFloat "1e2" = some (.finite ((100 : ℕ) : ℚ)) := by
    rw [show parseFloat "1e2"
        = some (mkFinite (mantissaVal ['1'] []
            * (10 : ℚ) ^ ((digitsToNat ['2'] : ℤ)))) from rfl]
    have hv : mantissaVal ['1'] [] * (10 : ℚ) ^ ((digitsToNat ['2'] : ℤ))
        = ((100 : ℕ) : ℚ) := by
      unfold mantissaVal
      rw [show digitsToNat ['1'] = 1 from rfl, show digitsToNat ['2'] = 2 from rfl,
        show digitsToNat ([] : List Char) = 0 from rfl, zpow_natCast]
      norm_num
    rw [hv, mkFinite_small (by norm_num) (by norm_num)]
  have hc15 : coerce_score (.num 15) = .ok (some 15) := by
    show (Except.ok (some (roundHalfEven (15 : ℚ))) : Except PyError (Option ℤ))
      = .ok (some 15)
    rw [show roundHalfEven (15 : ℚ) = 15 by norm_num [roundHalfEven]]
  refine ⟨?_, ?_, ?_, ?_, ?_, ?_, ?_, rfl, rfl, rfl, rfl, rfl, rfl, rfl, rfl, hc15, ?_, ?_⟩
  · intro sd pOpt sOpt iOpt hp hs hi
    exact ⟨updateScores_ok sd pOpt sOpt iOpt hp hs hi,
      getS_updFields_presence _ _ _ _ _, getS_updFields_skill _ _ _ _ _,
      getS_updFields_intent _ _ _ _ _, getS_updFields_psi _ _ _ _ _⟩
  · intro f sd u ed hsc hup
    exact normalise_payload_scores_object f sd ed u hsc hup
  · show (Except.ok (some (roundHalfEven (7 : ℚ))) : Except PyError (Option ℤ))
      = .ok (some 7)
    rw [show roundHalfEven (7 : ℚ) = 7 by norm_num [roundHalfEven]]
  · show (Except.ok (some (roundHalfEven (32/5 : ℚ))) : Except PyError (Option ℤ))
      = .ok (some 6)
    rw [show roundHalfEven (32/5 : ℚ) = 6 by norm_num [roundHalfEven]]
  · have h2 : strScore "6.4" = .ok (some 6) := by
      unfold strScore
      rw [if_neg (by decide : ¬("6.4" = "")), pf64]
      show (Except.ok (some (roundHalfEven (32/5 : ℚ))) : Except PyError (Option ℤ))
        = .ok (some 6)
      rw [show roundHalfEven (32/5 : ℚ) = 6 by norm_num [roundHalfEven]]
    exact h2
  · have h2 : strScore " 9 " = .ok (some 9) := by
      unfold strScore
      rw [if_neg (by decide : ¬(" 9 " = "")), pf9]
      show (Except.ok (some (roundHalfEven ((9 : ℕ) : ℚ))) : Except PyError (Option ℤ))
        = .ok (some 9)
      rw [show roundHalfEven ((9 : ℕ) : ℚ) = 9 by norm_num [roundHalfEven]]
    exact h2
  · have h2 : strScore "1e2" = .ok (some 100) := by
      unfold strScore
      rw [if_neg (by decide : ¬("1e2" = "")), pf1e2]
      show (Except.ok (some (roundHalfEven ((100 : ℕ) : ℚ))) : Except PyError (Option ℤ))
        = .ok (some 100)
      rw [show roundHalfEven ((100 : ℕ) : ℚ) = 100 by norm_num [roundHalfEven]]
    exact h2
  · have hup := updateScores_ok [("presence", .num 15)] (some 15) none none hc15 rfl rfl
    exact hup
  · have hget := getS_updFields_presence [("presence", .num 15)] 15 5 5 .null
    have hnone : as_conint ((getS (updFields [("presence", .num 15)] 15 5 5 .null)
        "presence").getD .null) = none := by
      rw [hget]
      show (if ((15 : ℤ) : ℚ).den = 1 ∧ 0 ≤ ((15 : ℤ) : ℚ).num ∧ ((15 : ℤ) : ℚ).num ≤ 10
        then some ((15 : ℤ) : ℚ).num else none) = none
      rw [if_neg]
      intro hcon
      have h22 := hcon.2.2
      rw [Rat.num_intCast] at h22
      omega
    simp only [validate_scores]
    rw [hnone]
    rfl

/-- Witness for C5's universally quantified clauses: the score-update clause
applied to a concrete scores dict with a null presence entry. -/
theorem normalise_scores_coercion_witness :
    updateScores [("presence", JValue.null)]
      = .ok (updFields [("presence", JValue.null)] 5 5 5
          (normPsiJ [("presence", JValue.null)])) ∧
    getS (updFields [("presence", JValue.null)] 5 5 5
        (normPsiJ [("presence", JValue.null)])) "presence"
      = some (.num ((5 : ℤ) : ℚ)) ∧
    getS (updFields [("presence", JValue.null)] 5 5 5
        (normPsiJ [("presence", JValue.null)])) "skill"
      = some (.num ((5 : ℤ) : ℚ)) ∧
    getS (updFields [("presence", JValue.null)] 5 5 5
        (normPsiJ [("presence", JValue.null)])) "intent"
      = some (.num ((5 : ℤ) : ℚ)) ∧
    getS (updFields [("presence", JValue.null)] 5 5 5
        (normPsiJ [("presence", JValue.null)])) "psi"
      = some (normPsiJ [("presence", JValue.null)]) :=
  normalise_scores_coercion.1 [("presence", JValue.null)] none none none rfl rfl rfl

/-! ### ReportGenerator: `generate_psi_report` (ai.py 225-252) and the
fallback report (ai.py 404-425) -/

/-- `PSIReport.weighted_psi` as a function of a validated report. -/
def report_weighted_psi (r : PSIReport) : ℚ :=
  weighted_psi r.scores.presence r.scores.skill r.scores.intent

/-- `PSIReport.psi_value`: the stored psi when present, else the weighted
recomputation. -/
def psi_value (r : PSIReport) : PyFloat :=
  r.scores.psi.getD (.finite (report_weighted_psi r))

/-- The one-time psi backfill at the end of `generate_psi_report` (ai.py
250-251). -/
def psi_backfill (r : PSIReport) : PSIReport :=
  match r.scores.psi with
  | some _ => r
  | none =>
    { r with scores := { r.scores with psi := some (.finite (report_weighted_psi r)) } }

/-- The fallback narrative message, optionally extended with the failure
reason (ai.py 405-407). -/
def fallback_message (reason : Option String) : String :=
  match reason with
  | none => "AI service unavailable. Provide manual feedback for this session."
  | some r =>
    "AI service unavailable. Provide manual feedback for this session." ++
      " (Reason: " ++ r ++ ")"

/-- The report `_fallback_report` builds from a successful score estimation:
canned narrative plus the estimator's scores.  The pydantic construction
always validates because the fallback scores are in range. -/
def fallback_report_of (fs : FallbackScores) (ed : EvalData)
    (reason : Option String) : PSIReport :=
  { scores := ⟨fs.presence, fs.skill, fs.intent, some (.finite fs.psi)⟩
    player_evaluation := fallback_message reason
    player_strengths := [(getS ed "strengths").getD "See coach notes."]
    player_weaknesses := ["Unable to evaluate automatically."]
    actions_strengths := ["Continue reinforcing successful patterns noted by the coach."]
    actions_weaknesses := ["Schedule a manual review session."]
    course_forward :=
      "AI insights are temporarily unavailable. Use the coach's notes to plan drills."
    summary_bullets := ["AI fallback response", "Review session manually",
      "Use coach insights", "Plan custom drills", "Monitor progress"] }

/-- `_fallback_report` (ai.py 404-425): run the fallback estimator and build
the canned report; an OverflowError raised by `_fallback_scores` propagates.
-/
def fallback_report (ed : EvalData) (reason : Option String) :
    Except PyError PSIReport :=
  (fallback_scores ed).map (fun fs => fallback_report_of fs ed reason)

/-- Outcome of the LLM collaborator step, as observed by
`generate_psi_report`: the model may be unconfigured, the call may raise a
blocked-content or transport/SDK exception, text extraction may fail
(AttributeError), the JSON decode may fail, or a decoded payload is obtained. -/
inductive LLMStep where
  | unavailable
  | blocked
  | transportFailure
  | noText
  | decodeFailure
  | payload (j : JValue)

/-- Which Python exceptions the except clause of `generate_psi_report`
catches: `(BlockedPromptException, ValidationError, json.JSONDecodeError,
AttributeError, TypeError)`.  A plain ValueError (as raised by
`dict("<string>")` inside `_normalise_payload`) and SDK/transport exceptions
are not in the tuple. -/
def caught_by_generate (e : PyError) : Bool :=
  match e with
  | .typeError => true
  | .valueError => false
  | .overflowError => false
  | .sdkError => false

/-- `generate_psi_report` (ai.py 225-252): fall back when the model is
unavailable; call the model; recover the caught exception kinds by building
the fallback report; validate the normalised payload and backfill psi on
success.  Exceptions outside the except tuple propagate to the caller, and
the fallback construction itself can raise (OverflowError from
`_fallback_scores`). -/
def generate_psi_report (step : LLMStep) (ed : EvalData) : Except PyError PSIReport :=
  match step with
  | .unavailable => fallback_report ed none
  | .blocked => fallback_report ed (some "blocked prompt")
  | .transportFailure => .error .sdkError
  | .noText => fallback_report ed (some "Unable to extract text from Gemini response")
  | .decodeFailure => fallback_report ed (some "json decode failure")
  | .payload j =>
    match normalise_payload j ed with
    | .error e =>
      if caught_by_generate e then fallback_report ed (some "normalisation failure")
      else .error e
    | .ok g =>
      match validate_psi_report g with
      | none => fallback_report ed (some "validation failure")
      | some r => .ok (psi_backfill r)

/-- C1 is contradicted by the code: not every failure is recovered into a
fallback report.  Unavailability, blocked content, unextractable responses
and JSON-decode failures ARE recovered whenever the fallback estimator itself
succeeds; but an LLM transport/SDK exception is not in the except tuple, a
payload whose "scores" entry is a non-empty string makes `_normalise_payload`
raise ValueError out of the tuple, and even the recovered paths propagate the
OverflowError that `_fallback_scores` raises on an "inf"-like note. -/
theorem generate_psi_report_error_handling :
    (∀ (ed : EvalData) (fs : FallbackScores), fallback_scores ed = .ok fs →
        (∃ r, generate_psi_report .unavailable ed = .ok r) ∧
        (∃ r, generate_psi_report .blocked ed = .ok r) ∧
        (∃ r, generate_psi_report .noText ed = .ok r) ∧
        (∃ r, generate_psi_report .decodeFailure ed = .ok r)) ∧
    (∀ ed, generate_psi_report .transportFailure ed = .error .sdkError) ∧
    generate_psi_report (.payload (.obj [("scores", .str "ab")])) edC7
      = .error .valueError ∧
    generate_psi_report .unavailable [("presence", "inf")] = .error .overflowError := by
  refine ⟨?_, fun _ => rfl, rfl, rfl⟩
  intro ed fs h
  have hmk : ∀ reason, fallback_report ed reason = .ok (fallback_report_of fs ed reason) := by
    intro reason
    unfold fallback_report
    rw [h]
    rfl
  exact ⟨⟨_, hmk none⟩, ⟨_, hmk (some "blocked prompt")⟩,
    ⟨_, hmk (some "Unable to extract text from Gemini response")⟩,
    ⟨_, hmk (some "json decode failure")⟩⟩

/-- Witness for C1's universally quantified clause, at the empty evaluation
data (whose fallback estimation succeeds with all defaults). -/
theorem generate_psi_report_error_handling_witness :
    (∃ r, generate_psi_report .unavailable [] = .ok r) ∧
    (∃ r, generate_psi_report .blocked [] = .ok r) ∧
    (∃ r, generate_psi_report .noText [] = .ok r) ∧
    (∃ r, generate_psi_report .decodeFailure [] = .ok r) :=
  generate_psi_report_error_handling.1 [] ⟨5, 5, 5, 5⟩ fallback_empty_eq

/-! ### TextRenderer: `PSIReport.formatted` (ai.py 165-197) and its helpers
(ai.py 388-401)

Python `str.split()` (split on whitespace runs, dropping empty pieces) is
modelled by `wordsAux`; `" ".join` by `joinC`/`joinSp`. -/

/-- Accumulator-style splitter behind Python `str.split()`: `acc` holds the
characters of the current word in reverse. -/
def wordsAux : List Char → List Char → List (List Char)
  | [], acc => if acc.isEmpty then [] else [acc.reverse]
  | c :: cs, acc =>
    if isPyWs c then
      if acc.isEmpty then wordsAux cs [] else acc.reverse :: wordsAux cs []
    else wordsAux cs (c :: acc)

/-- Python `s.split()`: the whitespace-separated words of a string. -/
def splitWords (s : String) : List String :=
  (wordsAux s.data []).map (fun w => ⟨w⟩)

/-- `len(s.split())`. -/
def countWords (s : String) : ℕ := (splitWords s).length

/-- Python `" ".join` on character lists. -/
def joinC : List (List Char) → List Char
  | [] => []
  | [w] => w
  | w :: rest => w ++ ' ' :: joinC rest

/-- Python `" ".join` on strings. -/
def joinSp (ws : List String) : String := ⟨joinC (ws.map String.data)⟩

/-- `_truncate_words` (ai.py 388-392): keep the text (stripped) when it has at
most `limit` words, else join the first `limit` words and append an ellipsis
character. -/
def truncate_words (text : String) (limit : ℕ) : String :=
  if (splitWords text).length ≤ limit then stripStr text
  else stripStr (joinSp ((splitWords text).take limit)) ++ "…"

/-- `_truncate_bullet` (ai.py 395-396). -/
def truncate_bullet (text : String) : String := truncate_words text 10

/-- `_ensure_items` (ai.py 399-401): strip the items, drop blank ones, and
substitute the placeholder when nothing remains. -/
def ensure_items (items : List String) : List String :=
  if ((items.filter (fun item => item ≠ "" ∧ stripStr item ≠ "")).map stripStr).isEmpty
  then ["No items provided"]
  else (items.filter (fun item => item ≠ "" ∧ stripStr item ≠ "")).map stripStr

/-- The `bullets[:5]` plus while-loop padding of `formatted` (ai.py 193-195). -/
def padSummary (bullets : List String) : List String :=
  bullets.take 5 ++ List.replicate (5 - (bullets.take 5).length) "No summary provided"

/-- The summary bullet lines of `formatted`. -/
def summary_lines (r : PSIReport) : List String :=
  (padSummary (ensure_items r.summary_bullets)).map
    (fun item => "- " ++ truncate_bullet item)

/-- The lines joined by `PSIReport.formatted` (ai.py 165-197), in source
order: score lines, PSI explanation, player evaluation (truncated to 100
words), the four bullet-list sections, course forward (truncated to 300
words), and exactly five summary bullets. -/
def formatted_lines (r : PSIReport) : List String :=
  ["Presence Score (P): " ++ toString r.scores.presence ++ "/10",
   "Skill Score (S): " ++ toString r.scores.skill ++ "/10",
   "Intent Score (I): " ++ toString r.scores.intent ++ "/10",
   "",
   "PSI Evaluation: " ++ pyFloatRepr (psi_value r) ++
     "/10 (A weighted average of the 3 where skill is given 45%, " ++
     "presence is given 25%, and intent is given 30%.)",
   "",
   "Player evaluation:",
   truncate_words r.player_evaluation 100,
   "",
   "Player strengths:"]
  ++ (ensure_items r.player_strengths).map (fun item => "- " ++ item)
  ++ ["", "Player weaknesses:"]
  ++ (ensure_items r.player_weaknesses).map (fun item => "- " ++ item)
  ++ ["", "Actions to be taken on Strengths:"]
  ++ (ensure_items r.actions_strengths).map (fun item => "- " ++ item)
  ++ ["", "Actions to be taken on Weaknesses:"]
  ++ (ensure_items r.actions_weaknesses).map (fun item => "- " ++ item)
  ++ ["", "The recommended course forward:", truncate_words r.course_forward 300,
      "", "Summary:"]
  ++ summary_lines r

/-- Python `"\n".join`. -/
def joinNL : List String → String
  | [] => ""
  | [l] => l
  | l :: rest => l ++ "\n" ++ joinNL rest

/-- `PSIReport.formatted`: the joined, stripped text. -/
def formatted (r : PSIReport) : String := stripStr (joinNL (formatted_lines r))

/-! ### Word-splitting lemmas -/

/-- A word produced by splitting: non-empty with no whitespace characters. -/
def cleanWord (w : List Char) : Prop := w ≠ [] ∧ ∀ c ∈ w, isPyWs c = false

theorem wordsAux_clean : ∀ (cs acc : List Char),
    (∀ c ∈ acc, isPyWs c = false) → ∀ w ∈ wordsAux cs acc, cleanWord w := by
  intro cs
  induction cs with
  | nil =>
    intro acc hacc w hw
    unfold wordsAux at hw
    split_ifs at hw with he
    · simp at hw
    · simp at hw
      subst hw
      constructor
      · have hne : acc ≠ [] := by
          intro h0
          rw [h0] at he
          simp at he
        simpa using hne
      · intro c hc
        exact hacc c (by simpa using hc)
  | cons c cs ih =>
    intro acc hacc w hw
    unfold wordsAux at hw
    split_ifs at hw with hws he
    · exact ih [] (by simp) w hw
    · rcases List.mem_cons.mp hw with h1 | h2
      · subst h1
        refine ⟨?_, ?_⟩
        · simp only [ne_eq, List.reverse_eq_nil_iff]
          simpa using he
        · intro d hd
          exact hacc d (by simpa using hd)
      · exact ih [] (by simp) w h2
    · refine ih (c :: acc) ?_ w hw
      intro d hd
      rcases List.mem_cons.mp hd with h1 | h2
      · subst h1; simpa using hws
      · exact hacc d h2

theorem wordsAux_all_ws (ts : List Char) (hts : ∀ c ∈ ts, isPyWs c = true) :
    wordsAux ts [] = [] := by
  induction ts with
  | nil => rfl
  | cons c cs ih =>
    unfold wordsAux
    rw [if_pos (hts c (List.mem_cons_self _ _))]
    simp only [List.isEmpty_nil, if_pos]
    exact ih (fun d hd => hts d (List.mem_cons_of_mem _ hd))

theorem wordsAux_append_ws (ts : List Char) (hts : ∀ c ∈ ts, isPyWs c = true) :
    ∀ (cs acc : List Char), wordsAux (cs ++ ts) acc = wordsAux cs acc := by
  intro cs
  induction cs with
  | nil =>
    intro acc
    cases ts with
    | nil => simp
    | cons t ts' =>
      simp only [List.nil_append]
      unfold wordsAux
      rw [if_pos (hts t (List.mem_cons_self _ _))]
      have hrest := wordsAux_all_ws ts' (fun d hd => hts d (List.mem_cons_of_mem _ hd))
      by_cases he : acc.isEmpty
      · rw [if_pos he, hrest, if_pos he]
      · rw [if_neg he, hrest, if_neg he]
  | cons c cs' ih =>
    intro acc
    simp only [List.cons_append]
    unfold wordsAux
    by_cases hws : isPyWs c
    · rw [if_pos hws, if_pos hws]
      by_cases he : acc.isEmpty
      · rw [if_pos he, if_pos he, ih]
      · rw [if_neg he, if_neg he, ih]
    · rw [if_neg hws, if_neg hws, ih]

theorem wordsAux_dropWhile (cs : List Char) :
    wordsAux (cs.dropWhile isPyWs) [] = wordsAux cs [] := by
  induction cs with
  | nil => rfl
  | cons c cs' ih =>
    by_cases hws : isPyWs c
    · have h1 : wordsAux (c :: cs') [] = wordsAux cs' [] := by
        show (if isPyWs c = true then
            if (List.nil (α := Char)).isEmpty = true then wordsAux cs' []
            else (List.nil (α := Char)).reverse :: wordsAux cs' []
          else wordsAux cs' (c :: [])) = wordsAux cs' []
        rw [if_pos hws]
        simp
      rw [List.dropWhile_cons_of_pos hws, ih, h1]
    · rw [List.dropWhile_cons_of_neg hws]

theorem countWords_eq (s : String) : countWords s = (wordsAux s.data []).length := by
  unfold countWords splitWords
  rw [List.length_map]

theorem countWords_strip (s : String) : countWords (stripStr s) = countWords s := by
  unfold countWords splitWords stripStr
  simp only [List.length_map]
  suffices h : wordsAux (stripChars s.data) [] = wordsAux s.data [] by rw [h]
  have h1 : wordsAux (s.data.dropWhile isPyWs) [] = wordsAux s.data [] :=
    wordsAux_dropWhile s.data
  have hdec : dropTrailingWs (s.data.dropWhile isPyWs) ++
      ((s.data.dropWhile isPyWs).reverse.takeWhile isPyWs).reverse =
      s.data.dropWhile isPyWs := by
    unfold dropTrailingWs
    rw [← List.reverse_append, List.takeWhile_append_dropWhile, List.reverse_reverse]
  have hts : ∀ c ∈ ((s.data.dropWhile isPyWs).reverse.takeWhile isPyWs).reverse,
      isPyWs c = true := by
    intro c hc
    rw [List.mem_reverse] at hc
    exact List.mem_takeWhile_imp hc
  calc wordsAux (stripChars s.data) []
      = wordsAux (dropTrailingWs (s.data.dropWhile isPyWs)) [] := rfl
    _ = wordsAux (dropTrailingWs (s.data.dropWhile isPyWs) ++
        ((s.data.dropWhile isPyWs).reverse.takeWhile isPyWs).reverse) [] :=
        (wordsAux_append_ws _ hts _ _).symm
    _ = wordsAux (s.data.dropWhile isPyWs) [] := by rw [hdec]
    _ = wordsAux s.data [] := h1

theorem wordsAux_consume : ∀ (w : List Char), (∀ c ∈ w, isPyWs c = false) →
    ∀ (cs acc : List Char), wordsAux (w ++ cs) acc = wordsAux cs (w.reverse ++ acc) := by
  intro w
  induction w with
  | nil => intro _ cs acc; simp
  | cons c w' ih =>
    intro h cs acc
    have hc : isPyWs c = false := h c (List.mem_cons_self _ _)
    simp only [List.cons_append]
    show (if isPyWs c = true then
        if acc.isEmpty = true then wordsAux (w' ++ cs) []
        else acc.reverse :: wordsAux (w' ++ cs) []
      else wordsAux (w' ++ cs) (c :: acc)) = wordsAux cs ((c :: w').reverse ++ acc)
    rw [hc]
    simp only [Bool.false_eq_true, if_false]
    rw [ih (fun d hd => h d (List.mem_cons_of_mem _ hd)) cs (c :: acc)]
    simp [List.append_assoc]

theorem joinC_cons_of_ne_nil (w : List Char) (rest : List (List Char)) (h : rest ≠ []) :
    joinC (w :: rest) = w ++ ' ' :: joinC rest := by
  cases rest with
  | nil => exact absurd rfl h
  | cons r rs => rfl

theorem wordsAux_joinC : ∀ (ws : List (List Char)), (∀ w ∈ ws, cleanWord w) →
    wordsAux (joinC ws) [] = ws := by
  intro ws
  induction ws with
  | nil => intro _; rfl
  | cons w rest ih =>
    intro h
    have hw := h w (List.mem_cons_self _ _)
    cases rest with
    | nil =>
      have h1 : wordsAux (w ++ []) [] = wordsAux [] (w.reverse ++ []) :=
        wordsAux_consume w hw.2 [] []
      simp only [List.append_nil] at h1
      show wordsAux w [] = [w]
      rw [h1]
      show (if w.reverse.isEmpty = true then ([] : List (List Char))
        else [w.reverse.reverse]) = [w]
      rw [if_neg (by simp [hw.1])]
      simp
    | cons r rs =>
      show wordsAux (w ++ ' ' :: joinC (r :: rs)) [] = w :: r :: rs
      rw [wordsAux_consume w hw.2]
      rw [show ∀ (cs acc : List Char), wordsAux (' ' :: cs) acc =
          if isPyWs ' ' = true then
            if acc.isEmpty = true then wordsAux cs [] else acc.reverse :: wordsAux cs []
          else wordsAux cs (' ' :: acc) from fun _ _ => rfl]
      rw [if_pos (by decide : isPyWs ' ' = true)]
      rw [if_neg (by simp [hw.1])]
      simp only [List.append_nil, List.reverse_reverse]
      rw [ih (fun u hu => h u (List.mem_cons_of_mem _ hu))]

/-- Append a character to the last word (used to reason about the ellipsis). -/
def concatLast : List (List Char) → Char → List (List Char)
  | [], c => [[c]]
  | [w], c => [w ++ [c]]
  | w :: rest, c => w :: concatLast rest c

theorem concatLast_ne_nil (ws : List (List Char)) (c : Char) : concatLast ws c ≠ [] := by
  cases ws with
  | nil => simp [concatLast]
  | cons w rest => cases rest <;> simp [concatLast]

theorem joinC_concatLast : ∀ (ws : List (List Char)) (c : Char), ws ≠ [] →
    joinC (concatLast ws c) = joinC ws ++ [c] := by
  intro ws c
  induction ws with
  | nil => intro h; exact absurd rfl h
  | cons w rest ih =>
    intro _
    cases rest with
    | nil => rfl
    | cons r rs =>
      show joinC (w :: concatLast (r :: rs) c) = joinC (w :: r :: rs) ++ [c]
      rw [joinC_cons_of_ne_nil w _ (concatLast_ne_nil _ c)]
      rw [ih (by simp)]
      rw [joinC_cons_of_ne_nil w _ (by simp)]
      simp [List.append_assoc]

theorem concatLast_length : ∀ (ws : List (List Char)) (c : Char), ws ≠ [] →
    (concatLast ws c).length = ws.length := by
  intro ws c
  induction ws with
  | nil => intro h; exact absurd rfl h
  | cons w rest ih =>
    intro _
    cases rest with
    | nil => rfl
    | cons r rs =>
      show (w :: concatLast (r :: rs) c).length = (w :: r :: rs).length
      simp only [List.length_cons]
      rw [ih (by simp)]
      simp

theorem concatLast_clean : ∀ (ws : List (List Char)) (c : Char),
    (∀ w ∈ ws, cleanWord w) → isPyWs c = false →
    ∀ w ∈ concatLast ws c, cleanWord w := by
  intro ws c
  induction ws with
  | nil =>
    intro _ hc w hw
    simp [concatLast] at hw
    subst hw
    exact ⟨by simp, by intro d hd; simp at hd; subst hd; exact hc⟩
  | cons w0 rest ih =>
    intro h hc w hw
    cases rest with
    | nil =>
      simp [concatLast] at hw
      subst hw
      refine ⟨by simp, ?_⟩
      intro d hd
      rcases List.mem_append.mp hd with h1 | h2
      · exact (h w0 (List.mem_cons_self _ _)).2 d h1
      · simp at h2; subst h2; exact hc
    | cons r rs =>
      rcases List.mem_cons.mp hw with h1 | h2
      · subst h1; exact h w (List.mem_cons_self _ _)
      · exact ih (fun u hu => h u (List.mem_cons_of_mem _ hu)) hc w h2

theorem joinC_reverse_head : ∀ (ws : List (List Char)), ws ≠ [] →
    (∀ w ∈ ws, cleanWord w) →
    ∃ c tl, (joinC ws).reverse = c :: tl ∧ isPyWs c = false := by
  intro ws
  induction ws with
  | nil => intro h; exact absurd rfl h
  | cons w rest ih =>
    intro _ h
    have hw := h w (List.mem_cons_self _ _)
    cases rest with
    | nil =>
      have hne : w.reverse ≠ [] := by simp [hw.1]
      obtain ⟨c, tl, hct⟩ := List.exists_cons_of_ne_nil hne
      refine ⟨c, tl, hct, ?_⟩
      apply hw.2
      rw [← List.mem_reverse, hct]
      exact List.mem_cons_self _ _
    | cons r rs =>
      obtain ⟨c, tl, hct, hc⟩ := ih (by simp) (fun u hu => h u (List.mem_cons_of_mem _ hu))
      refine ⟨c, tl ++ ' ' :: w.reverse, ?_, hc⟩
      show (joinC (w :: r :: rs)).reverse = c :: (tl ++ ' ' :: w.reverse)
      rw [joinC_cons_of_ne_nil w _ (by simp)]
      rw [List.reverse_append]
      show (' ' :: joinC (r :: rs)).reverse ++ w.reverse = c :: (tl ++ ' ' :: w.reverse)
      rw [List.reverse_cons, hct]
      simp [List.append_assoc]

theorem stripChars_joinC_clean (ws : List (List Char)) (hne : ws ≠ [])
    (hcl : ∀ w ∈ ws, cleanWord w) : stripChars (joinC ws) = joinC ws := by
  obtain ⟨w, rest, rfl⟩ := List.exists_cons_of_ne_nil hne
  have hw := hcl w (List.mem_cons_self _ _)
  obtain ⟨c0, w0, rfl⟩ : ∃ c0 w0, w = c0 :: w0 := by
    cases w with
    | nil => exact absurd rfl hw.1
    | cons a b => exact ⟨a, b, rfl⟩
  have hc0 : isPyWs c0 = false := hw.2 c0 (List.mem_cons_self _ _)
  have hhead : ∃ tl, joinC ((c0 :: w0) :: rest) = c0 :: tl := by
    cases rest with
    | nil => exact ⟨w0, rfl⟩
    | cons r rs => exact ⟨w0 ++ ' ' :: joinC (r :: rs), rfl⟩
  obtain ⟨tl, htl⟩ := hhead
  obtain ⟨c1, tl1, hrev, hc1⟩ := joinC_reverse_head _ (by simp) hcl
  unfold stripChars dropTrailingWs
  rw [htl, List.dropWhile_cons_of_neg (by simp [hc0]), ← htl, hrev]
  rw [List.dropWhile_cons_of_neg (by simp [hc1]), ← hrev, List.reverse_reverse]

theorem countWords_truncate_le (s : String) (limit : ℕ) (hlim : 1 ≤ limit) :
    countWords (truncate_words s limit) ≤ limit := by
  unfold truncate_words
  split_ifs with hle
  · rw [countWords_strip]
    exact hle
  · have hlen : limit < (splitWords s).length := by omega
    set wsc : List (List Char) := (wordsAux s.data []).take limit with hwsc
    have hclean : ∀ w ∈ wsc, cleanWord w := by
      intro w hw
      exact wordsAux_clean s.data [] (by simp) w (List.take_subset _ _ hw)
    have hlenc : wsc.length = limit := by
      rw [hwsc, List.length_take]
      have : (wordsAux s.data []).length = (splitWords s).length := by
        unfold splitWords
        rw [List.length_map]
      omega
    have hnec : wsc ≠ [] := by
      intro h0
      have h00 : wsc.length = 0 := by rw [h0]; rfl
      omega
    have hdata : ((splitWords s).take limit).map String.data = wsc := by
      unfold splitWords
      rw [← List.map_take, List.map_map]
      have : (String.data ∘ fun w => (⟨w⟩ : String)) = id := by
        funext w
        rfl
      rw [this, List.map_id]
    have hjoin : (joinSp ((splitWords s).take limit)).data = joinC wsc := by
      unfold joinSp
      rw [hdata]
    have hstrip : (stripStr (joinSp ((splitWords s).take limit))).data = joinC wsc := by
      unfold stripStr
      rw [hjoin]
      exact stripChars_joinC_clean wsc hnec hclean
    have hfull : (stripStr (joinSp ((splitWords s).take limit)) ++ "…").data
        = joinC (concatLast wsc '…') := by
      rw [String.data_append, hstrip]
      rw [joinC_concatLast wsc '…' hnec]
    rw [countWords_eq, hfull]
    rw [wordsAux_joinC _ (concatLast_clean wsc '…' hclean (by decide))]
    rw [concatLast_length wsc '…' hnec, hlenc]

theorem padSummary_length (b : List String) : (padSummary b).length = 5 := by
  unfold padSummary
  rw [List.length_append, List.length_replicate, List.length_take]
  omega

/-- C8: the rendered lines always end with a "Summary:" header followed by
exactly 5 bullet lines, each bullet truncated to at most 10 words, padded
with the placeholder bullet when fewer than 5 non-blank bullets were
supplied; and `_ensure_items` never produces an empty section — an empty or
all-blank list renders as the single placeholder bullet. -/
theorem text_renderer_contract :
    (∀ r : PSIReport, ∃ (pre : List String) (bullets : List String),
        formatted_lines r = pre ++ "Summary:" ::
          bullets.map (fun b => "- " ++ truncate_bullet b) ∧
        bullets.length = 5 ∧
        (∀ b ∈ bullets, countWords (truncate_bullet b) ≤ 10) ∧
        ((ensure_items r.summary_bullets).length ≤ 4 → "No summary provided" ∈ bullets)) ∧
    (∀ items : List String, ensure_items items ≠ []) ∧
    (∀ items : List String, (∀ i ∈ items, stripStr i = "") →
        ensure_items items = ["No items provided"]) := by
  refine ⟨?_, ?_, ?_⟩
  · intro r
    refine ⟨["Presence Score (P): " ++ toString r.scores.presence ++ "/10",
      "Skill Score (S): " ++ toString r.scores.skill ++ "/10",
      "Intent Score (I): " ++ toString r.scores.intent ++ "/10",
      "",
      "PSI Evaluation: " ++ pyFloatRepr (psi_value r) ++
        "/10 (A weighted average of the 3 where skill is given 45%, " ++
        "presence is given 25%, and intent is given 30%.)",
      "",
      "Player evaluation:",
      truncate_words r.player_evaluation 100,
      "",
      "Player strengths:"]
      ++ (ensure_items r.player_strengths).map (fun item => "- " ++ item)
      ++ ["", "Player weaknesses:"]
      ++ (ensure_items r.player_weaknesses).map (fun item => "- " ++ item)
      ++ ["", "Actions to be taken on Strengths:"]
      ++ (ensure_items r.actions_strengths).map (fun item => "- " ++ item)
      ++ ["", "Actions to be taken on Weaknesses:"]
      ++ (ensure_items r.actions_weaknesses).map (fun item => "- " ++ item)
      ++ ["", "The recommended course forward:", truncate_words r.course_forward 300, ""],
      padSummary (ensure_items r.summary_bullets), ?_, padSummary_length _, ?_, ?_⟩
    · simp [formatted_lines, summary_lines, List.append_assoc]
    · intro b _
      exact countWords_truncate_le b 10 (by norm_num)
    · intro h
      unfold padSummary
      apply List.mem_append.mpr
      right
      rw [List.mem_replicate]
      have : (List.take 5 (ensure_items r.summary_bullets)).length ≤ 4 := by
        rw [List.length_take]
        omega
      exact ⟨by omega, rfl⟩
  · intro items
    unfold ensure_items
    split_ifs with h
    · simp
    · intro h0
      rw [h0] at h
      simp at h
  · intro items h
    unfold ensure_items
    have hfil : items.filter (fun item => item ≠ "" ∧ stripStr item ≠ "") = [] := by
      rw [List.filter_eq_nil]
      intro a ha
      have := h a ha
      simp [this]
    rw [hfil]
    simp

/-- A concrete validated report used to instantiate the renderer contract. -/
def sampleReport : PSIReport :=
  ⟨⟨7, 6, 8, none⟩, "solid session", ["net play"], [], [], [],
    "more multi-shuttle drills", ["keep it up"]⟩

/-- Witness for C8: the renderer contract applied to a concrete report and to
concrete empty and all-blank item lists. -/
theorem text_renderer_contract_witness :
    (∃ (pre : List String) (bullets : List String),
        formatted_lines sampleReport = pre ++ "Summary:" ::
          bullets.map (fun b => "- " ++ truncate_bullet b) ∧
        bullets.length = 5 ∧
        (∀ b ∈ bullets, countWords (truncate_bullet b) ≤ 10) ∧
        ((ensure_items sampleReport.summary_bullets).length ≤ 4 →
          "No summary provided" ∈ bullets)) ∧
    ensure_items [] ≠ [] ∧
    ensure_items ["", "  "] = ["No items provided"] :=
  ⟨text_renderer_contract.1 sampleReport, text_renderer_contract.2.1 [],
    text_renderer_contract.2.2 ["", "  "] (by decide)⟩

/-! ### Verification-code store (verification.py 29-63)

The in-memory `verification_store` dict is an association list from contact to
entry; `datetime.utcnow()` is passed in explicitly as an integer timestamp in
minutes, so `timedelta(minutes=10)` is `+ 10`. -/

/-- A stored verification entry: code, type, expiry instant, attempt count. -/
structure VEntry where
  code : String
  vtype : String
  expires_at : ℤ
  attempts : ℕ
  deriving Repr, DecidableEq

/-- The verification store. -/
def VStore : Type := List (String × VEntry)

/-- Python `del d[key]`: since a Python dict holds at most one binding per
key, deleting removes every binding of the key. -/
def delS {α : Type} : List (String × α) → String → List (String × α)
  | [], _ => []
  | (k, v) :: rest, key => if k = key then delS rest key else (k, v) :: delS rest key

/-- `store_verification_code` (verification.py 29-36): overwrite the contact's
entry with a fresh code, a 10-minute expiry and a zero attempt count. -/
def store_verification_code (st : VStore) (contact code vtype : String)
    (now : ℤ) : VStore :=
  setS st contact ⟨code, vtype, now + 10, 0⟩

/-- Python `str.upper()` on the ASCII range (verification codes are uppercase
letters and digits). -/
def upperChar (c : Char) : Char :=
  if 'a' ≤ c ∧ c ≤ 'z' then Char.ofNat (c.toNat - 32) else c

/-- Python `str.upper()`. -/
def upperStr (s : String) : String := ⟨s.data.map upperChar⟩

/-- `verify_code` (verification.py 38-63): returns the verification outcome and
the updated store.  Absent entry: False.  Expired entry or an entry with 5 or
more recorded attempts: delete and False.  Otherwise record the attempt; a
case-insensitive code match deletes the entry and returns True, a mismatch
keeps the incremented entry and returns False. -/
def verify_code (st : VStore) (contact code : String) (now : ℤ) : Bool × VStore :=
  match getS st contact with
  | none => (false, st)
  | some stored =>
    if stored.expires_at < now then (false, delS st contact)
    else if 5 ≤ stored.attempts then (false, delS st contact)
    else if upperStr stored.code = upperStr code then (true, delS st contact)
    else (false, setS st contact { stored with attempts := stored.attempts + 1 })

/-- Run a sequence of `verify_code` calls for one contact, collecting the
results and threading the store. -/
def verifyRun : VStore → String → List (String × ℤ) → List Bool × VStore
  | st, _, [] => ([], st)
  | st, contact, (code, now) :: rest =>
    let out := verify_code st contact code now
    let tail := verifyRun out.2 contact rest
    (out.1 :: tail.1, tail.2)

/-- Number of successful verifications in a result list. -/
def countTrue (l : List Bool) : ℕ := (l.filter (fun b => b = true)).length

theorem getS_delS_self {α : Type} (l : List (String × α)) (k : String) :
    getS (delS l k) k = none := by
  induction l with
  | nil => rfl
  | cons hd tl ih =>
    obtain ⟨k0, v⟩ := hd
    by_cases h0 : k0 = k
    · simp [delS, h0, ih]
    · simp [delS, getS, h0, ih]

theorem countTrue_replicate_false (n : ℕ) : countTrue (List.replicate n false) = 0 := by
  unfold countTrue
  induction n with
  | zero => rfl
  | succ m ih =>
    rw [List.replicate_succ]
    simpa using ih

theorem verifyRun_absent (c : String) : ∀ (calls : List (String × ℤ)) (st : VStore),
    getS st c = none →
    verifyRun st c calls = (List.replicate calls.length false, st) := by
  intro calls
  induction calls with
  | nil => intro st _; rfl
  | cons p rest ih =>
    intro st h
    obtain ⟨code, now⟩ := p
    have hv : verify_code st c code now = (false, st) := by
      unfold verify_code
      rw [h]
    show ((verify_code st c code now).1 ::
        (verifyRun (verify_code st c code now).2 c rest).1,
      (verifyRun (verify_code st c code now).2 c rest).2)
      = (false :: List.replicate rest.length false, st)
    rw [hv]
    show (false :: (verifyRun st c rest).1, (verifyRun st c rest).2)
      = (false :: List.replicate rest.length false, st)
    rw [ih st h]

theorem verify_code_true_deletes (st : VStore) (c code : String) (now : ℤ)
    (h : (verify_code st c code now).1 = true) :
    (verify_code st c code now).2 = delS st c := by
  rcases hg : getS st c with _ | e
  · have h0 : verify_code st c code now = (false, st) := by
      unfold verify_code
      rw [hg]
    rw [h0] at h
    simp at h
  · have h0 : verify_code st c code now =
        (if e.expires_at < now then (false, delS st c)
         else if 5 ≤ e.attempts then (false, delS st c)
         else if upperStr e.code = upperStr code then (true, delS st c)
         else (false, setS st c { e with attempts := e.attempts + 1 })) := by
      unfold verify_code
      rw [hg]
    rw [h0] at h ⊢
    split_ifs at h ⊢ <;> simp_all

theorem verifyRun_at_most_one_success (c : String) :
    ∀ (calls : List (String × ℤ)) (st : VStore),
      countTrue (verifyRun st c calls).1 ≤ 1 := by
  intro calls
  induction calls with
  | nil => intro st; simp [verifyRun, countTrue]
  | cons p rest ih =>
    intro st
    obtain ⟨code, now⟩ := p
    show countTrue ((verify_code st c code now).1 ::
      (verifyRun (verify_code st c code now).2 c rest).1) ≤ 1
    rcases hr : (verify_code st c code now).1 with _ | _
    · -- failed attempt: the head contributes nothing
      have hhead : countTrue (false :: (verifyRun (verify_code st c code now).2 c rest).1)
          = countTrue ((verifyRun (verify_code st c code now).2 c rest).1) := by
        unfold countTrue
        simp
      rw [hhead]
      exact ih _
    · -- success: the entry is deleted, so the tail is all failures
      have hdel := verify_code_true_deletes st c code now hr
      have habs : getS (verify_code st c code now).2 c = none := by
        rw [hdel]
        exact getS_delS_self st c
      rw [verifyRun_absent c rest _ habs]
      show countTrue (true :: List.replicate rest.length false) ≤ 1
      unfold countTrue
      simp only [List.filter_cons]
      norm_num

theorem verifyRun_attempts_exhaust (c : String) :
    ∀ (calls : List (String × ℤ)) (st : VStore) (e : VEntry),
      getS st c = some e →
      ∀ r ∈ (verifyRun st c calls).1.drop (5 - e.attempts), r = false := by
  intro calls
  induction calls with
  | nil =>
    intro st e he r hr
    simp [verifyRun] at hr
  | cons p rest ih =>
    intro st e he r hr
    obtain ⟨code, now⟩ := p
    have hshape : verifyRun st c ((code, now) :: rest)
        = ((verify_code st c code now).1 ::
            (verifyRun (verify_code st c code now).2 c rest).1,
          (verifyRun (verify_code st c code now).2 c rest).2) := rfl
    have hv : verify_code st c code now =
        (if e.expires_at < now then (false, delS st c)
         else if 5 ≤ e.attempts then (false, delS st c)
         else if upperStr e.code = upperStr code then (true, delS st c)
         else (false, setS st c { e with attempts := e.attempts + 1 })) := by
      unfold verify_code
      rw [he]
    rw [hshape] at hr
    split_ifs at hv with h1 h2 h3
    · -- expired: deleted, all later calls fail
      rw [hv] at hr
      have habs : getS (delS st c) c = none := getS_delS_self st c
      rw [verifyRun_absent c rest _ habs] at hr
      have hmem := List.drop_subset _ _ hr
      rcases List.mem_cons.mp hmem with h0 | h0
      · exact h0
      · exact List.eq_of_mem_replicate h0
    · -- attempt limit reached: deleted, all later calls fail
      rw [hv] at hr
      have habs : getS (delS st c) c = none := getS_delS_self st c
      rw [verifyRun_absent c rest _ habs] at hr
      have hmem := List.drop_subset _ _ hr
      rcases List.mem_cons.mp hmem with h0 | h0
      · exact h0
      · exact List.eq_of_mem_replicate h0
    · -- success within the first five attempts: deleted afterwards
      rw [hv] at hr
      have habs : getS (delS st c) c = none := getS_delS_self st c
      rw [verifyRun_absent c rest _ habs] at hr
      obtain ⟨m, hm⟩ : ∃ m, 5 - e.attempts = m + 1 := ⟨4 - e.attempts, by omega⟩
      rw [hm] at hr
      show r = false
      have : r ∈ (List.replicate rest.length false).drop m := by
        simpa [List.drop_succ_cons] using hr
      exact List.eq_of_mem_replicate (List.drop_subset _ _ this)
    · -- failed attempt: the counter advances and the tail exhausts sooner
      rw [hv] at hr
      have hset : getS (setS st c { e with attempts := e.attempts + 1 }) c
          = some { e with attempts := e.attempts + 1 } := getS_setS_self _ _ _
      have ihres := ih (setS st c { e with attempts := e.attempts + 1 })
        { e with attempts := e.attempts + 1 } hset r
      obtain ⟨m, hm⟩ : ∃ m, 5 - e.attempts = m + 1 := ⟨4 - e.attempts, by omega⟩
      rw [hm] at hr
      have hr' : r ∈ (verifyRun (setS st c { e with attempts := e.attempts + 1 }) c rest).1.drop m := by
        simpa [List.drop_succ_cons] using hr
      apply ihres
      have hmeq : m = 5 - ({ e with attempts := e.attempts + 1 } : VEntry).attempts := by
        show m = 5 - (e.attempts + 1)
        omega
      rw [← hmeq]
      exact hr'

/-- C10: a stored code verifies successfully at most once — a True return
deletes the entry and every later call for that contact returns False until a
new code is stored — and a stored code admits at most 5 verification
attempts: entries whose attempt count has reached 5, like expired entries,
are deleted by the observing call, and after a fresh store at most the first
5 calls can succeed, with every call beyond the fifth returning False. -/
theorem verification_store_at_most_once_and_five :
    (∀ (st : VStore) (c code : String) (now : ℤ),
        (verify_code st c code now).1 = true →
        getS (verify_code st c code now).2 c = none) ∧
    (∀ (st : VStore) (c : String), getS st c = none →
        ∀ (calls : List (String × ℤ)),
          verifyRun st c calls = (List.replicate calls.length false, st)) ∧
    (∀ (st : VStore) (c code : String) (e : VEntry) (now : ℤ),
        getS st c = some e → 5 ≤ e.attempts →
        verify_code st c code now = (false, delS st c)) ∧
    (∀ (st : VStore) (c code : String) (e : VEntry) (now : ℤ),
        getS st c = some e → e.expires_at < now →
        verify_code st c code now = (false, delS st c)) ∧
    (∀ (st : VStore) (c code vtype : String) (now : ℤ) (calls : List (String × ℤ)),
        countTrue (verifyRun (store_verification_code st c code vtype now) c calls).1 ≤ 1 ∧
        ∀ r ∈ (verifyRun (store_verification_code st c code vtype now) c calls).1.drop 5,
          r = false) := by
  refine ⟨?_, ?_, ?_, ?_, ?_⟩
  · intro st c code now h
    rw [verify_code_true_deletes st c code now h]
    exact getS_delS_self st c
  · intro st c h calls
    exact verifyRun_absent c calls st h
  · intro st c code e now he hatt
    have h0 : verify_code st c code now =
        (if e.expires_at < now then (false, delS st c)
         else if 5 ≤ e.attempts then (false, delS st c)
         else if upperStr e.code = upperStr code then (true, delS st c)
         else (false, setS st c { e with attempts := e.attempts + 1 })) := by
      unfold verify_code
      rw [he]
    rw [h0]
    split_ifs <;> rfl
  · intro st c code e now he hexp
    have h0 : verify_code st c code now =
        (if e.expires_at < now then (false, delS st c)
         else if 5 ≤ e.attempts then (false, delS st c)
         else if upperStr e.code = upperStr code then (true, delS st c)
         else (false, setS st c { e with attempts := e.attempts + 1 })) := by
      unfold verify_code
      rw [he]
    rw [h0, if_pos hexp]
  · intro st c code vtype now calls
    constructor
    · exact verifyRun_at_most_one_success c calls _
    · have hget : getS (store_verification_code st c code vtype now) c
          = some ⟨code, vtype, now + 10, 0⟩ := getS_setS_self st c _
      have := verifyRun_attempts_exhaust c calls _ ⟨code, vtype, now + 10, 0⟩ hget
      simpa using this

/-- Witness for C10: the store invariants applied at a concrete store, code
and call sequence: one successful verification deletes the entry, and six
wrong-code attempts after a fresh store produce no success with the sixth
returning False. -/
theorem verification_store_at_most_once_and_five_witness :
    getS (verify_code [("coach@x.io", ⟨"ABC123", "email", 10, 0⟩)]
      "coach@x.io" "abc123" 5).2 "coach@x.io" = none ∧
    (countTrue (verifyRun (store_verification_code [] "coach@x.io" "ABC123" "email" 0)
        "coach@x.io" [("X1", 1), ("X2", 1), ("X3", 2), ("X4", 2), ("X5", 3),
          ("ABC123", 3)]).1 ≤ 1 ∧
      ∀ r ∈ (verifyRun (store_verification_code [] "coach@x.io" "ABC123" "email" 0)
        "coach@x.io" [("X1", 1), ("X2", 1), ("X3", 2), ("X4", 2), ("X5", 3),
          ("ABC123", 3)]).1.drop 5, r = false) :=
  ⟨verification_store_at_most_once_and_five.1 [("coach@x.io", ⟨"ABC123", "email", 10, 0⟩)]
      "coach@x.io" "abc123" 5 (by decide),
    verification_store_at_most_once_and_five.2.2.2.2 [] "coach@x.io" "ABC123" "email" 0
      [("X1", 1), ("X2", 1), ("X3", 2), ("X4", 2), ("X5", 3), ("ABC123", 3)]⟩

/-! ### Video analysis: response cleanup, the three JSON-recovery levels, and
normalisation (ai.py 873-897, 931-956, 963-997, 1000-1026, 1029-1082)

`json.loads` is an external collaborator and is passed in as a function
`String → Option JValue` (`none` models a decode exception); the brace scan,
the regex field extraction and the dict normalisation are embedded from the
source. -/

/-- Prefix test on character lists (`str.startswith`). -/
def startsWithChars : List Char → List Char → Bool
  | _, [] => true
  | [], _ :: _ => false
  | c :: cs, p :: ps => c = p && startsWithChars cs ps

/-- The markdown-fence cleanup applied to the raw response text before any
JSON parsing (ai.py 873-882): strip, remove a leading ```json or ``` fence
and a trailing ``` fence, strip again. -/
def clean_response_text (s : String) : String :=
  let t1 := stripChars s.data
  let t2 := if startsWithChars t1 "```json".data then t1.drop 7 else t1
  let t3 := if startsWithChars t2 "```".data then t2.drop 3 else t2
  let t4 := if startsWithChars t3.reverse "```".data.reverse then
      t3.take (t3.length - 3) else t3
  ⟨stripChars t4⟩

/-- The brace-matching scan of `_try_fix_json` (ai.py 1009-1018): walk from
the first `{`, tracking nesting depth, and return the substring up to the
matching close brace (None when the braces never re-balance). -/
def braceScanAux : List Char → ℤ → List Char → Option (List Char)
  | [], _, _ => none
  | c :: cs, depth, acc =>
    let depth' := if c = '{' then depth + 1 else if c = '}' then depth - 1 else depth
    if c = '}' ∧ depth' = 0 then some ((c :: acc).reverse)
    else braceScanAux cs depth' (c :: acc)

/-- `_try_fix_json` (ai.py 1000-1026): find the first `{`, extract the
brace-matched substring, and decode it; any failure yields None. -/
def try_fix_json (loads : String → Option JValue) (text : String) : Option JValue :=
  match text.data.dropWhile (fun c => c ≠ '{') with
  | [] => none
  | rest => (braceScanAux rest 0 []).bind (fun cs => loads ⟨cs⟩)

/-- Try to match the regex `"key":\s*` at the current position, returning the
remaining characters after the colon and whitespace. -/
def matchKeyColon (key : String) (cs : List Char) : Option (List Char) :=
  if startsWithChars cs ('"' :: key.data ++ ['"', ':']) then
    some ((cs.drop (key.data.length + 3)).dropWhile isPyWs)
  else none

/-- Scan every position of the text for the first match (`re.search`). -/
def scanFor {α : Type} (f : List Char → Option α) : List Char → Option α
  | [] => f []
  | c :: rest =>
    match f (c :: rest) with
    | some x => some x
    | none => scanFor f rest

/-- Match `"key":\s*(\d+)` at the current position. -/
def matchKeyNat (key : String) (cs : List Char) : Option ℕ :=
  (matchKeyColon key cs).bind (fun rest =>
    let ds := rest.takeWhile Char.isDigit
    if ds.isEmpty then none else some (digitsToNat ds))

/-- Match `"psi":\s*(\d+\.?\d*)` at the current position, as a float. -/
def matchPsiNum (cs : List Char) : Option ℚ :=
  (matchKeyColon "psi" cs).bind (fun rest =>
    let ds := rest.takeWhile Char.isDigit
    if ds.isEmpty then none
    else
      match rest.drop ds.length with
      | '.' :: rest2 =>
        let fs := rest2.takeWhile Char.isDigit
        some ((digitsToNat ds : ℚ) + (digitsToNat fs : ℚ) / (10 : ℚ) ^ fs.length)
      | _ => some ((digitsToNat ds : ℕ) : ℚ))

/-- Match `"key":\s*"([^"]*)"` at the current position. -/
def matchKeyStr (key : String) (cs : List Char) : Option String :=
  (matchKeyColon key cs).bind (fun rest =>
    match rest with
    | '"' :: rest2 =>
      let content := rest2.takeWhile (fun c => c ≠ '"')
      match rest2.drop content.length with
      | '"' :: _ => some ⟨content⟩
      | _ => none
    | _ => none)

/-- `re.search` for an integer field value. -/
def findKeyNat (key : String) (text : List Char) : Option ℕ :=
  scanFor (matchKeyNat key) text

/-- `re.search` for a string field value. -/
def findKeyStr (key : String) (text : List Char) : Option String :=
  scanFor (matchKeyStr key) text

/-- The technical-analysis fields extracted by field-by-field regex
(ai.py 1046). -/
def techFieldKeys : List String :=
  ["smash_success_rate", "drop_shot_precision", "clear_depth_consistency",
   "net_play_effectiveness", "unforced_errors", "forced_errors", "service_faults"]

/-- The movement fields extracted by field-by-field regex (ai.py 1053). -/
def movementFieldKeys : List String :=
  ["court_coverage", "recovery_speed", "balance_stance", "fatigue_analysis"]

/-- The tactical fields extracted by field-by-field regex (ai.py 1060). -/
def tacticalFieldKeys : List String :=
  ["rally_patterns", "shot_distribution", "predictability", "opponent_exploits"]

/-- Extract a sub-dict of string fields found in the text. -/
def extractStrFields (keys : List String) (text : List Char) : JFields :=
  keys.filterMap (fun k => (findKeyStr k text).map (fun v => (k, JValue.str v)))

/-- `_parse_text_video_analysis` (ai.py 1029-1082): regex field-by-field
extraction with defaults — scores default to 7 (psi 7.0), the narrative
sub-dicts keep whatever fields matched, the evaluation falls back to the
first 500 characters of the text, and the remaining fields are canned. -/
def parse_text_video_analysis (text : String) (game_format : String) : JFields :=
  let presence := (findKeyNat "presence" text.data).getD 7
  let skill := (findKeyNat "skill" text.data).getD 7
  let intent := (findKeyNat "intent" text.data).getD 7
  let psi := (scanFor matchPsiNum text.data).getD 7
  let player_eval :=
    match findKeyStr "player_evaluation" text.data with
    | some v => v
    | none => if text.length > 500 then ⟨text.data.take 500⟩ else text
  [("scores", .obj [("presence", .num (presence : ℕ)), ("skill", .num (skill : ℕ)),
      ("intent", .num (intent : ℕ)), ("psi", .num psi)]),
   ("technical_analysis", .obj (extractStrFields techFieldKeys text.data)),
   ("movement_footwork", .obj (extractStrFields movementFieldKeys text.data)),
   ("tactical_insights", .obj (extractStrFields tacticalFieldKeys text.data)),
   ("player_evaluation", .str player_eval),
   ("player_strengths", .arr [.str "Analysis extracted from response - see evaluation"]),
   ("player_weaknesses", .arr [.str "Analysis extracted from response - see evaluation"]),
   ("actions_strengths", .arr [.str "Review detailed analysis for specific recommendations"]),
   ("actions_weaknesses", .arr [.str "Review detailed analysis for specific recommendations"]),
   ("course_forward", .str "Full analysis available in player evaluation"),
   ("summary_bullets", .arr [.str "Video analysis generated",
      .str "Review full report for details"]),
   ("team_performance", if game_format = "doubles" then .obj [] else .null)]

/-- One list-field step of `_normalize_video_analysis` (ai.py 973-975): any
value that is not a list (strings included) is replaced by the empty list. -/
def videoListStep (f : JFields) (key : String) : JFields :=
  match getS f key with
  | some (.arr _) => f
  | some _ => setS f key (.arr [])
  | none => setS f key (.arr [])

/-- One text-field step of `_normalize_video_analysis` (ai.py 978-980):
absent or falsy values become "Analysis in progress". -/
def videoTextStep (f : JFields) (key : String) : JFields :=
  if jTruthy ((getS f key).getD .null) then f
  else setS f key (.str "Analysis in progress")

/-- Ensure a sub-dict key exists (ai.py 983-995): only membership is checked. -/
def ensureObjStep (f : JFields) (key : String) : JFields :=
  if (getS f key).isSome then f else setS f key (.obj [])

/-- Body of `_normalize_video_analysis` (ai.py 963-997) once the `dict(data)`
copy has succeeded. -/
def normalizeVideoFields (f : JFields) (game_format : String) : JFields :=
  let f1 := if (getS f "scores").isSome then f
    else setS f "scores" (.obj [("presence", .num 5), ("skill", .num 5),
      ("intent", .num 5), ("psi", .num 5)])
  let f2 := ["player_strengths", "player_weaknesses", "actions_strengths",
    "actions_weaknesses", "summary_bullets"].foldl videoListStep f1
  let f3 := ["player_evaluation", "course_forward"].foldl videoTextStep f2
  let f4 := ensureObjStep (ensureObjStep (ensureObjStep f3 "technical_analysis")
    "movement_footwork") "tactical_insights"
  if game_format = "doubles" then ensureObjStep f4 "team_performance" else f4

/-- `_normalize_video_analysis` (ai.py 963-997) on the decoded value: the
`dict(data)` copy raises for a truthy non-mapping, which the surrounding
except clause of `generate_video_analysis` turns into the canned fallback. -/
def normalize_video_analysis (data : JValue) (game_format : String) :
    Except PyError JFields :=
  (topDictCoerce data).map (fun f => normalizeVideoFields f game_format)

/-- Outcome of processing one video-analysis response text: either a report
dict is returned, or `_fallback_video_analysis` is invoked — and that
function unconditionally raises NameError, because both of its branches
interpolate the undefined name `player_level` (ai.py 1123 and 1220; its
parameters are player_name, partner_name, game_format, reason), so the canned
report it is meant to return never reaches the caller. -/
inductive VideoResult where
  | report (f : JFields)
  | fallbackNameError

/-- What happens to a decoded payload (from level (a) or (b)): it is
normalised into a report, and if the `dict(data)` copy inside
`_normalize_video_analysis` raises, the outer except clause of
`generate_video_analysis` invokes `_fallback_video_analysis`, which raises
NameError. -/
def videoLevelNormalize (j : JValue) (game_format : String) : VideoResult :=
  match normalize_video_analysis j game_format with
  | .ok f => .report f
  | .error _ => .fallbackNameError

/-- The response-text processing of `generate_video_analysis` (ai.py 931-956):
clean the text, try a direct decode, then the brace-matched extraction — its
result used only `if fixed_result:` is truthy (a decoded empty object is
falsy and falls through) — then the regex extraction. -/
def process_video_response (loads : String → Option JValue) (game_format : String)
    (text : String) : VideoResult :=
  match loads (clean_response_text text) with
  | some j => videoLevelNormalize j game_format
  | none =>
    match try_fix_json loads (clean_response_text text) with
    | some j =>
      if jTruthy j then videoLevelNormalize j game_format
      else .report (parse_text_video_analysis (clean_response_text text) game_format)
    | none => .report (parse_text_video_analysis (clean_response_text text) game_format)

/-- A concrete stand-in for `json.loads` that agrees with it on the strings
exercised below: the text `[1, 2]` decodes to a JSON array. -/
def loadsArrStub : String → Option JValue := fun s =>
  if s = "[1, 2]" then some (.arr [.num 1, .num 2]) else none

/-- A concrete stand-in for `json.loads` decoding only the empty object. -/
def loadsEmptyObjStub : String → Option JValue := fun s =>
  if s = "\x7b\x7d" then some (.obj []) else none

/-- C9 is contradicted by the code.  The ladder clauses: level (a) is the
direct decode, level (b) the brace-matched extraction — consulted only after
(a) fails and only used when its decode is truthy (a brace-extracted empty
object counts as failure) — and level (c) the regex extraction, which is
total, so "all three levels fail" is unreachable.  The canned-fallback path
is taken exactly when a truthy-gated decode from level (a) or (b) fails the
`dict(data)` conversion, NOT on ladder exhaustion — and on that path
`_fallback_video_analysis` raises NameError instead of returning the canned
report.  Concretely: `[1, 2]` decodes at level (a) yet ends in the fallback
path; an array of string-keyed pairs is accepted by `dict()` and yields a
normal report; and a brace-extracted `\x7b\x7d` is falsy, so the code falls
through to the regex report. -/
theorem video_recovery_ladder :
    (∀ (loads : String → Option JValue) (gf text : String) (j : JValue) (f : JFields),
      loads (clean_response_text text) = some j →
      normalize_video_analysis j gf = .ok f →
      process_video_response loads gf text = .report f) ∧
    (∀ (loads : String → Option JValue) (gf text : String) (j : JValue) (e : PyError),
      loads (clean_response_text text) = some j →
      normalize_video_analysis j gf = .error e →
      process_video_response loads gf text = .fallbackNameError) ∧
    (∀ (loads : String → Option JValue) (gf text : String) (j : JValue) (f : JFields),
      loads (clean_response_text text) = none →
      try_fix_json loads (clean_response_text text) = some j →
      jTruthy j = true →
      normalize_video_analysis j gf = .ok f →
      process_video_response loads gf text = .report f) ∧
    (∀ (loads : String → Option JValue) (gf text : String) (j : JValue) (e : PyError),
      loads (clean_response_text text) = none →
      try_fix_json loads (clean_response_text text) = some j →
      jTruthy j = true →
      normalize_video_analysis j gf = .error e →
      process_video_response loads gf text = .fallbackNameError) ∧
    (∀ (loads : String → Option JValue) (gf text : String) (j : JValue),
      loads (clean_response_text text) = none →
      try_fix_json loads (clean_response_text text) = some j →
      jTruthy j = false →
      process_video_response loads gf text =
        .report (parse_text_video_analysis (clean_response_text text) gf)) ∧
    (∀ (loads : String → Option JValue) (gf text : String),
      loads (clean_response_text text) = none →
      try_fix_json loads (clean_response_text text) = none →
      process_video_response loads gf text =
        .report (parse_text_video_analysis (clean_response_text text) gf)) ∧
    (∀ (loads : String → Option JValue) (gf text : String),
      process_video_response loads gf text = .fallbackNameError →
      ∃ j e, (loads (clean_response_text text) = some j ∨
          (loads (clean_response_text text) = none ∧
           try_fix_json loads (clean_response_text text) = some j ∧ jTruthy j = true)) ∧
        normalize_video_analysis j gf = .error e) ∧
    loadsArrStub (clean_response_text "[1, 2]") = some (.arr [.num 1, .num 2]) ∧
    process_video_response loadsArrStub "singles" "[1, 2]" = .fallbackNameError ∧
    topDictCoerce (.arr [.arr [.str "a", .num 1]]) = .ok [("a", .num 1)] ∧
    (∃ f, normalize_video_analysis (.arr [.arr [.str "a", .num 1]]) "singles" = .ok f) ∧
    process_video_response loadsEmptyObjStub "singles" "foo \x7b\x7d bar"
      = .report (parse_text_video_analysis
          (clean_response_text "foo \x7b\x7d bar") "singles") := by
  refine ⟨?_, ?_, ?_, ?_, ?_, ?_, ?_, rfl, rfl, rfl, ⟨_, rfl⟩, rfl⟩
  · intro loads gf text j f hl hn
    have h1 : process_video_response loads gf text = videoLevelNormalize j gf := by
      unfold process_video_response
      rw [hl]
    rw [h1]
    unfold videoLevelNormalize
    rw [hn]
  · intro loads gf text j e hl hn
    have h1 : process_video_response loads gf text = videoLevelNormalize j gf := by
      unfold process_video_response
      rw [hl]
    rw [h1]
    unfold videoLevelNormalize
    rw [hn]
  · intro loads gf text j f hl ht htr hn
    have h1 : process_video_response loads gf text = videoLevelNormalize j gf := by
      unfold process_video_response
      rw [hl, ht]
      have h2 : (if jTruthy j then videoLevelNormalize j gf
          else VideoResult.report (parse_text_video_analysis (clean_response_text text) gf))
          = videoLevelNormalize j gf := by
        rw [htr]
        rfl
      exact h2
    rw [h1]
    unfold videoLevelNormalize
    rw [hn]
  · intro loads gf text j e hl ht htr hn
    have h1 : process_video_response loads gf text = videoLevelNormalize j gf := by
      unfold process_video_response
      rw [hl, ht]
      have h2 : (if jTruthy j then videoLevelNormalize j gf
          else VideoResult.report (parse_text_video_analysis (clean_response_text text) gf))
          = videoLevelNormalize j gf := by
        rw [htr]
        rfl
      exact h2
    rw [h1]
    unfold videoLevelNormalize
    rw [hn]
  · intro loads gf text j hl ht htr
    unfold process_video_response
    rw [hl, ht]
    have h2 : (if jTruthy j then videoLevelNormalize j gf
        else VideoResult.report (parse_text_video_analysis (clean_response_text text) gf))
        = VideoResult.report (parse_text_video_analysis (clean_response_text text) gf) := by
      rw [htr]
      rfl
    exact h2
  · intro loads gf text hl ht
    unfold process_video_response
    rw [hl, ht]
  · intro loads gf text hfb
    unfold process_video_response at hfb
    rcases hl : loads (clean_response_text text) with _ | j
    · rw [hl] at hfb
      rcases ht : try_fix_json loads (clean_response_text text) with _ | j
      · rw [ht] at hfb
        exact absurd (show VideoResult.report (parse_text_video_analysis
          (clean_response_text text) gf) = .fallbackNameError from hfb) (by simp)
      · rw [ht] at hfb
        have hfb1 : (if jTruthy j then videoLevelNormalize j gf
            else VideoResult.report (parse_text_video_analysis (clean_response_text text) gf))
            = .fallbackNameError := hfb
        rcases htr : jTruthy j with _ | _
        · rw [htr] at hfb1
          exact absurd (show VideoResult.report (parse_text_video_analysis
            (clean_response_text text) gf) = .fallbackNameError from hfb1) (by simp)
        · rw [htr] at hfb1
          have hfb2 : videoLevelNormalize j gf = .fallbackNameError := hfb1
          rcases hn : normalize_video_analysis j gf with e | f
          · exact ⟨j, e, Or.inr ⟨rfl, rfl, htr⟩, hn⟩
          · exfalso
            unfold videoLevelNormalize at hfb2
            rw [hn] at hfb2
            simp at hfb2
    · rw [hl] at hfb
      have hfb2 : videoLevelNormalize j gf = .fallbackNameError := hfb
      rcases hn : normalize_video_analysis j gf with e | f
      · exact ⟨j, e, Or.inl rfl, hn⟩
      · exfalso
        unfold videoLevelNormalize at hfb2
        rw [hn] at hfb2
        simp at hfb2

/-- Witness for C9's universally quantified clauses: with a decoder that
fails on everything and a text with no brace, levels (a) and (b) fail and
level (c)'s regex extraction supplies the report. -/
theorem video_recovery_ladder_witness :
    process_video_response (fun _ => none) "singles" "no json here"
      = .report (parse_text_video_analysis
          (clean_response_text "no json here") "singles") :=
  video_recovery_ladder.2.2.2.2.2.1 (fun _ => none) "singles" "no json here" rfl rfl
